import Mathlib

/-!
# Minesweeper board logic (`src/main.cpp`)

A shallow embedding of the game logic of the `Minesweeper` widget: mine
placement, adjacency counting, cascading reveal, flag toggling, hints and
win/loss handling.  Widget calls (button texts, style sheets, message boxes)
carry no logic and are left out; the one exception is the ghost field
`notified`, which records the cells whose button `revealCell` updates.

Conventions of the embedding:
* C++ `int` is `Int`; `score` never exceeds `rows * columns`, so no wrap-around
  is modelled.
* `std::vector<std::vector<T>>` is `List (List T)`; reads outside the vector
  (undefined behaviour in C++) return a default, writes outside it do nothing.
  Every theorem about an access assumes the coordinates are in range.
* `rand()` is a list of natural numbers, consumed from the front.
* Recursion depth of `revealCell` is bounded by a fuel argument.
-/

namespace Minesweeper

/-- Ways in which a run of the embedded code can fail to produce a state. -/
inductive Fault where
  /-- A vector is asked for a negative number of elements. -/
  | badAlloc
  /-- The second operand of `%` is zero. -/
  | divByZero
  /-- The supplied random draws end before the placement loop does. -/
  | outOfDraws
  /-- The supplied recursion depth is used up. -/
  | outOfFuel
  deriving DecidableEq, Repr

end Minesweeper

/-- The data members of `class Minesweeper` that carry game state, and the
ghost field `notified`. -/
structure Minesweeper where
  grid : List (List Int)
  revealed : List (List Bool)
  flagged : List (List Bool)
  score : Int
  hintRow : Int
  hintCol : Int
  hintGiven : Bool
  rows : Int
  columns : Int
  mines : Int
  /-- Ghost: the cells on which `revealCell` passed its `revealed` guard and
  updated the button, most recent first. -/
  notified : List (Int × Int)
  deriving DecidableEq, Repr

namespace Minesweeper

/-- Read `v[r][c]`: `d` outside the vector. -/
def getCell {α : Type} (d : α) (v : List (List α)) (r c : Int) : α :=
  if 0 ≤ r ∧ 0 ≤ c then ((v.getD r.toNat []).getD c.toNat d) else d

/-- Write `v[r][c] = x`: nothing happens outside the vector. -/
def setCell {α : Type} (v : List (List α)) (r c : Int) (x : α) : List (List α) :=
  if 0 ≤ r ∧ 0 ≤ c then v.set r.toNat ((v.getD r.toNat []).set c.toNat x) else v

/-- The values `0, 1, ..., n - 1` of a loop `for (int i = 0; i < n; ++i)`. -/
def upTo (n : Int) : List Int := (List.range n.toNat).map Int.ofNat

/-- The values of a loop `for (int i = -1; i <= 1; ++i)`. -/
def around : List Int := [-1, 0, 1]

/-- The test `newRow >= 0 && newRow < rows && newCol >= 0 && newCol < columns`. -/
def inGrid (s : Minesweeper) (r c : Int) : Bool :=
  decide (r ≥ 0) && decide (r < s.rows) && decide (c ≥ 0) && decide (c < s.columns)

/-- The loop of `placeMines`, on the random draws `draws`, with the local
`count` and the member `grid` as loop state. -/
def placeMinesLoop (rows columns mines : Int) :
    List Nat → Int → List (List Int) → Except Fault (List (List Int))
  | draws, count, grid =>
    if count < mines then
      match draws with
      | [] => .error .outOfDraws
      | [_] => if rows = 0 then .error .divByZero else .error .outOfDraws
      | r :: c :: rest =>
        if rows = 0 then .error .divByZero
        else if columns = 0 then .error .divByZero
        else
          let row := Int.tmod (r : Int) rows
          let col := Int.tmod (c : Int) columns
          if getCell 0 grid row col ≠ 9 then
            placeMinesLoop rows columns mines rest (count + 1) (setCell grid row col 9)
          else
            placeMinesLoop rows columns mines rest count grid
    else .ok grid

/-- Embedding of `Minesweeper::placeMines`. -/
def placeMines (draws : List Nat) (s : Minesweeper) : Except Fault Minesweeper :=
  match placeMinesLoop s.rows s.columns s.mines draws 0 s.grid with
  | .ok g => .ok { s with grid := g }
  | .error e => .error e

/-- Embedding of `Minesweeper::countAdjacentMines`. -/
def countAdjacentMines (s : Minesweeper) (row col : Int) : Int :=
  around.foldl (fun count i =>
    around.foldl (fun count j =>
      let newRow := row + i
      let newCol := col + j
      if inGrid s newRow newCol && decide (getCell 0 s.grid newRow newCol = 9) then count + 1
      else count) count) 0

/-- The nested loop of `revealCell` over the neighbourhood of `(row, col)`,
with the recursive call passed in as `call`. -/
def revealAround (call : Minesweeper → Int → Int → Except Fault Minesweeper)
    (row col : Int) (s : Minesweeper) : Except Fault Minesweeper :=
  around.foldlM (fun st i =>
    around.foldlM (fun st j =>
      let newRow := row + i
      let newCol := col + j
      if inGrid st newRow newCol then call st newRow newCol else .ok st) st) s

/-- Embedding of `Minesweeper::revealCell`, with at most `fuel` nested calls. -/
def revealCell : Nat → Minesweeper → Int → Int → Except Fault Minesweeper
  | 0, _, _, _ => .error .outOfFuel
  | fuel + 1, s, row, col =>
    if getCell false s.revealed row col then .ok s
    else
      let s1 := { s with
        revealed := setCell s.revealed row col true
        score := s.score + 1
        notified := (row, col) :: s.notified }
      let adjacentMines := countAdjacentMines s1 row col
      if adjacentMines > 0 then .ok s1
      else revealAround (revealCell fuel) row col s1

/-- The assignments of `resetGame` that precede its call of `placeMines`. -/
def clearedBoard (s : Minesweeper) : Minesweeper :=
  { s with
    score := 0
    grid := List.replicate s.rows.toNat (List.replicate s.columns.toNat 0)
    revealed := List.replicate s.rows.toNat (List.replicate s.columns.toNat false)
    flagged := List.replicate s.rows.toNat (List.replicate s.columns.toNat false)
    hintRow := -1
    hintCol := -1
    hintGiven := false }

/-- Embedding of `Minesweeper::resetGame`. -/
def resetGame (draws : List Nat) (s : Minesweeper) : Except Fault Minesweeper :=
  if s.rows < 0 ∨ s.columns < 0 then .error .badAlloc
  else placeMines draws (clearedBoard s)

/-- Embedding of `Minesweeper::gameOver`: the mines are shown, then the game is reset. -/
def gameOver (draws : List Nat) (s : Minesweeper) : Except Fault Minesweeper :=
  resetGame draws s

/-- The inner loop of `checkWin` on row `i`: `break` leaves it at the first
unrevealed non-mine cell. -/
def checkWinRow (s : Minesweeper) (i : Int) : List Int → Bool → Bool
  | [], win => win
  | j :: js, win =>
    if !getCell false s.revealed i j && decide (getCell 0 s.grid i j ≠ 9) then false
    else checkWinRow s i js win

/-- The outer loop of `checkWin`. -/
def checkWinRows (s : Minesweeper) : List Int → Bool → Bool
  | [], win => win
  | i :: is, win => checkWinRows s is (checkWinRow s i (upTo s.columns) win)

/-- The value of the local `win` of `checkWin` after its loops. -/
def checkWinFlag (s : Minesweeper) : Bool :=
  checkWinRows s (upTo s.rows) true

/-- Embedding of `Minesweeper::checkWin`. -/
def checkWin (draws : List Nat) (s : Minesweeper) : Except Fault Minesweeper :=
  if checkWinFlag s then resetGame draws s else .ok s

/-- Embedding of `Minesweeper::isSafeCell`. -/
def isSafeCell (s : Minesweeper) (row col : Int) : Bool :=
  if getCell false s.revealed row col || decide (getCell 0 s.grid row col = 9) then false
  else
    around.any (fun i =>
      around.any (fun j =>
        let newRow := row + i
        let newCol := col + j
        inGrid s newRow newCol && getCell false s.revealed newRow newCol))

/-- Embedding of `Minesweeper::findSafeCell`. -/
def findSafeCell (s : Minesweeper) : Int × Int :=
  ((upTo s.rows).findSome? (fun i =>
    (upTo s.columns).findSome? (fun j =>
      if isSafeCell s i j then some (i, j) else none))).getD (-1, -1)

/-- Embedding of `Minesweeper::giveHint`. -/
def giveHint (fuel : Nat) (draws : List Nat) (s : Minesweeper) : Except Fault Minesweeper :=
  if s.hintGiven && decide (s.hintRow ≠ -1) && decide (s.hintCol ≠ -1)
      && !getCell false s.revealed s.hintRow s.hintCol then
    match revealCell fuel s s.hintRow s.hintCol with
    | .error e => .error e
    | .ok s1 =>
      match checkWin draws s1 with
      | .error e => .error e
      | .ok s2 => .ok { s2 with hintRow := -1, hintCol := -1, hintGiven := false }
  else
    let (row, col) := findSafeCell s
    if row ≠ -1 ∧ col ≠ -1 then
      .ok { s with hintRow := row, hintCol := col, hintGiven := true }
    else
      .ok { s with hintGiven := false }

/-- The first statement of `handleButtonClick`: a hint given for the clicked
cell is withdrawn. -/
def clearHintAt (s : Minesweeper) (row col : Int) : Minesweeper :=
  if s.hintGiven && decide (row = s.hintRow) && decide (col = s.hintCol) then
    { s with hintRow := -1, hintCol := -1, hintGiven := false }
  else s

/-- Embedding of `Minesweeper::handleButtonClick`. -/
def handleButtonClick (fuel : Nat) (draws : List Nat) (s : Minesweeper) (row col : Int) :
    Except Fault Minesweeper :=
  let s0 := clearHintAt s row col
  if getCell 0 s0.grid row col = 9 then gameOver draws s0
  else
    match revealCell fuel s0 row col with
    | .error e => .error e
    | .ok s1 => checkWin draws s1

/-- Embedding of `Minesweeper::handleRightClick`. -/
def handleRightClick (s : Minesweeper) (row col : Int) : Minesweeper :=
  if getCell false s.flagged row col then
    { s with flagged := setCell s.flagged row col false }
  else
    { s with flagged := setCell s.flagged row col true }

/-- The member initialisers and the three `resize` calls of the constructor. -/
def blankBoard (rows columns mines : Int) : Minesweeper :=
  { grid := List.replicate rows.toNat (List.replicate columns.toNat 0)
    revealed := List.replicate rows.toNat (List.replicate columns.toNat false)
    flagged := List.replicate rows.toNat (List.replicate columns.toNat false)
    score := 0
    hintRow := -1
    hintCol := -1
    hintGiven := false
    rows := rows
    columns := columns
    mines := mines
    notified := [] }

/-- The constructor `Minesweeper::Minesweeper`. -/
def construct (rows columns mines : Int) (draws : List Nat) : Except Fault Minesweeper :=
  if rows < 0 ∨ columns < 0 then .error .badAlloc
  else placeMines draws (blankBoard rows columns mines)

/-- Embedding of `main`: the board that the statement
`Minesweeper minesweeper(0, 10, 10);` constructs. -/
def main (draws : List Nat) : Except Fault Minesweeper :=
  construct 0 10 10 draws

/-! ## Vocabulary of the statements -/

/-- The cell `(r, c)` holds a mine: `grid[r][c] == 9`. -/
def isMine (s : Minesweeper) (r c : Int) : Bool := decide (getCell 0 s.grid r c = 9)

/-- The value of `revealed[r][c]`. -/
def isRevealed (s : Minesweeper) (r c : Int) : Bool := getCell false s.revealed r c

/-- The value of `flagged[r][c]`. -/
def isFlagged (s : Minesweeper) (r c : Int) : Bool := getCell false s.flagged r c

/-- The coordinate `(r, c)` lies in the grid. -/
def InRange (s : Minesweeper) (r c : Int) : Prop :=
  0 ≤ r ∧ r < s.rows ∧ 0 ≤ c ∧ c < s.columns

instance (s : Minesweeper) (r c : Int) : Decidable (InRange s r c) := by
  unfold InRange; infer_instance

/-- A vector of `R` rows, each of `C` entries. -/
def Rect {α : Type} (R C : Nat) (v : List (List α)) : Prop :=
  v.length = R ∧ ∀ row ∈ v, row.length = C

instance {α : Type} (R C : Nat) (v : List (List α)) : Decidable (Rect R C v) := by
  unfold Rect; infer_instance

/-- The three matrices have the dimensions `rows` and `columns`, as the
constructor and `resetGame` make them. -/
def WellFormed (s : Minesweeper) : Prop :=
  0 ≤ s.rows ∧ 0 ≤ s.columns ∧
  Rect s.rows.toNat s.columns.toNat s.grid ∧
  Rect s.rows.toNat s.columns.toNat s.revealed ∧
  Rect s.rows.toNat s.columns.toNat s.flagged

instance (s : Minesweeper) : Decidable (WellFormed s) := by
  unfold WellFormed; infer_instance

/-- All coordinates of the grid, in row-major order. -/
def cells (s : Minesweeper) : List (Int × Int) :=
  List.product (upTo s.rows) (upTo s.columns)

/-- Number of cells of the grid that hold a mine. -/
def mineCount (s : Minesweeper) : Nat :=
  (cells s).countP (fun p => isMine s p.1 p.2)

/-- Number of cells of the grid with `revealed == true`. -/
def revealedCount (s : Minesweeper) : Nat :=
  (cells s).countP (fun p => isRevealed s p.1 p.2)

/-- Number of cells of the grid with `revealed == false`. -/
def unrevealedCount (s : Minesweeper) : Nat :=
  (cells s).countP (fun p => !isRevealed s p.1 p.2)

/-- The cells `(r, c)` and `(r2, c2)` are at Chebyshev distance 1. -/
def adjacent (r c r2 c2 : Int) : Bool :=
  decide (max (r2 - r).natAbs (c2 - c).natAbs = 1)

/-- The adjacent-mine count as the specification words it: the number of
mines among the in-grid neighbours of `(r, c)` at Chebyshev distance 1; the
cell `(r, c)` itself is not among them. -/
def neighbourMines (s : Minesweeper) (r c : Int) : Nat :=
  (cells s).countP (fun p => adjacent r c p.1 p.2 && isMine s p.1 p.2)

/-- The cell `(r, c)` is unrevealed in `s` and revealed in `t`. -/
def NewlyRevealed (s t : Minesweeper) (r c : Int) : Prop :=
  isRevealed s r c = false ∧ isRevealed t r c = true

/-- The offsets `(i, j)` in the order in which the nested loops over
`i = -1..1`, `j = -1..1` visit them. -/
def offsets : List (Int × Int) :=
  [(-1, -1), (-1, 0), (-1, 1), (0, -1), (0, 0), (0, 1), (1, -1), (1, 0), (1, 1)]

/-- The state after the first statements of `revealCell` on an unrevealed
cell: `revealed[row][col] = true; ++score;` and the update of the button. -/
def markRevealed (s : Minesweeper) (row col : Int) : Minesweeper :=
  { s with
    revealed := setCell s.revealed row col true
    score := s.score + 1
    notified := (row, col) :: s.notified }

/-- What a run of `revealCell` (or a part of one) does to the state: it only
adds revealed cells, one notification and one point of score for each; every
newly revealed cell is a root of the run or a neighbour of a newly revealed
cell without adjacent mines. -/
structure Cascade (roots : Int → Int → Prop) (s t : Minesweeper) : Prop where
  grid_eq : t.grid = s.grid
  flagged_eq : t.flagged = s.flagged
  hintRow_eq : t.hintRow = s.hintRow
  hintCol_eq : t.hintCol = s.hintCol
  hintGiven_eq : t.hintGiven = s.hintGiven
  rows_eq : t.rows = s.rows
  columns_eq : t.columns = s.columns
  mines_eq : t.mines = s.mines
  wellFormed : WellFormed t
  mono : ∀ r c, isRevealed s r c = true → isRevealed t r c = true
  inRange : ∀ r c, NewlyRevealed s t r c → InRange s r c
  log : ∃ l : List (Int × Int), t.notified = l ++ s.notified ∧ l.Nodup ∧
    (∀ r c, (r, c) ∈ l ↔ NewlyRevealed s t r c) ∧
    t.score = s.score + l.length ∧ unrevealedCount t + l.length = unrevealedCount s
  parent : ∀ r c, NewlyRevealed s t r c → roots r c ∨
    ∃ qr qc, NewlyRevealed s t qr qc ∧ countAdjacentMines s qr qc = 0 ∧
      adjacent qr qc r c = true

/-- Every newly revealed cell without adjacent mines has all its neighbours
in the grid revealed. -/
def Closed (s t : Minesweeper) : Prop :=
  ∀ r c, NewlyRevealed s t r c → countAdjacentMines s r c = 0 →
    ∀ r2 c2, InRange s r2 c2 → adjacent r c r2 c2 = true → isRevealed t r2 c2 = true

/-- The cells of the 3 x 3 block around `(r, c)` other than `(r, c)`. -/
def ring8 (r c : Int) : List (Int × Int) :=
  [(r - 1, c - 1), (r - 1, c), (r - 1, c + 1), (r, c - 1), (r, c + 1),
   (r + 1, c - 1), (r + 1, c), (r + 1, c + 1)]

/-- The cells a hint may name: in the grid, not revealed, no mine, and next
to (Chebyshev distance 1) a revealed cell of the grid. -/
def HintCandidate (s : Minesweeper) (r c : Int) : Prop :=
  InRange s r c ∧ isRevealed s r c = false ∧ isMine s r c = false ∧
  ∃ r2 c2, InRange s r2 c2 ∧ adjacent r c r2 c2 = true ∧ isRevealed s r2 c2 = true

/-- The state `t` has the dimensions and the mine count of `s`. -/
def SameConfig (s t : Minesweeper) : Prop :=
  t.rows = s.rows ∧ t.columns = s.columns ∧ t.mines = s.mines

/-- What holds of the state between any two slots of the game. -/
structure GameInv (s : Minesweeper) : Prop where
  wellFormed : WellFormed s
  score_eq : s.score = revealedCount s
  hint_inRange : s.hintGiven = true → InRange s s.hintRow s.hintCol
  hint_safe : s.hintGiven = true → isMine s s.hintRow s.hintCol = false
  revealed_safe : ∀ r c, InRange s r c → isRevealed s r c = true → isMine s r c = false
  mines_eq : 0 ≤ s.mines → (mineCount s : Int) = s.mines

/-- A board as the constructor and `resetGame` leave it. -/
structure Fresh (s : Minesweeper) : Prop where
  wellFormed : WellFormed s
  score_eq : s.score = 0
  hintGiven_eq : s.hintGiven = false
  hintRow_eq : s.hintRow = -1
  hintCol_eq : s.hintCol = -1
  unrevealed : ∀ r c, isRevealed s r c = false
  unflagged : ∀ r c, isFlagged s r c = false
  mines_eq : 0 ≤ s.mines → (mineCount s : Int) = s.mines

/-- The parameters a board may be constructed with. -/
def ValidConfig (rows columns mines : Int) : Prop :=
  0 < rows ∧ 0 < columns ∧ 0 ≤ mines ∧ mines < rows * columns

instance (rows columns mines : Int) : Decidable (ValidConfig rows columns mines) := by
  unfold ValidConfig; infer_instance

/-- The states the game can be in: those the constructor produces, and those
the four slots produce from them on coordinates of the grid. -/
inductive Reachable (rows columns mines : Int) : Minesweeper → Prop
  | construct (draws : List Nat) (s : Minesweeper) :
      Minesweeper.construct rows columns mines draws = .ok s → Reachable rows columns mines s
  | handleButtonClick (fuel : Nat) (draws : List Nat) (s t : Minesweeper) (row col : Int) :
      Reachable rows columns mines s → InRange s row col →
      Minesweeper.handleButtonClick fuel draws s row col = .ok t → Reachable rows columns mines t
  | handleRightClick (s : Minesweeper) (row col : Int) :
      Reachable rows columns mines s → InRange s row col →
      Reachable rows columns mines (Minesweeper.handleRightClick s row col)
  | giveHint (fuel : Nat) (draws : List Nat) (s t : Minesweeper) :
      Reachable rows columns mines s →
      Minesweeper.giveHint fuel draws s = .ok t → Reachable rows columns mines t
  | resetGame (draws : List Nat) (s t : Minesweeper) :
      Reachable rows columns mines s →
      Minesweeper.resetGame draws s = .ok t → Reachable rows columns mines t

deriving instance DecidableEq for Except

/-! ## Concrete boards used as examples -/

/-- A 2 x 2 board as the constructor leaves it before `placeMines` runs,
asking for one mine. -/
def clear2x2 : Minesweeper :=
  { grid := [[0, 0], [0, 0]]
    revealed := [[false, false], [false, false]]
    flagged := [[false, false], [false, false]]
    score := 0, hintRow := -1, hintCol := -1, hintGiven := false
    rows := 2, columns := 2, mines := 1, notified := [] }

/-- The board `mined2x2` after a right click on `(0, 0)`. -/
def flagged2x2 : Minesweeper :=
  { grid := [[0, 0], [0, 9]]
    revealed := [[false, false], [false, false]]
    flagged := [[true, false], [false, false]]
    score := 0, hintRow := -1, hintCol := -1, hintGiven := false
    rows := 2, columns := 2, mines := 1, notified := [] }

/-- The board `flagged2x2` after a click on its flagged cell `(0, 0)`. -/
def revealedFlagged2x2 : Minesweeper :=
  { flagged2x2 with
    revealed := [[true, false], [false, false]], score := 1, notified := [(0, 0)] }

/-- A 4 x 4 board without mines, as `construct 4 4 0 []` builds it. -/
def board4x4 : Minesweeper :=
  { grid := [[0, 0, 0, 0], [0, 0, 0, 0], [0, 0, 0, 0], [0, 0, 0, 0]]
    revealed := [[false, false, false, false], [false, false, false, false],
      [false, false, false, false], [false, false, false, false]]
    flagged := [[false, false, false, false], [false, false, false, false],
      [false, false, false, false], [false, false, false, false]]
    score := 0, hintRow := -1, hintCol := -1, hintGiven := false
    rows := 4, columns := 4, mines := 0, notified := [] }

/-- A 1 x 7 board with its one mine at `(0, 3)`, as
`construct 1 7 1 [0, 3]` builds it. -/
def line7 : Minesweeper :=
  { grid := [[0, 0, 0, 9, 0, 0, 0]]
    revealed := [[false, false, false, false, false, false, false]]
    flagged := [[false, false, false, false, false, false, false]]
    score := 0, hintRow := -1, hintCol := -1, hintGiven := false
    rows := 1, columns := 7, mines := 1, notified := [] }

/-- A 1 x 1 board without mines, as `construct 1 1 0 []` builds it. -/
def solo1x1 : Minesweeper :=
  { grid := [[0]], revealed := [[false]], flagged := [[false]]
    score := 0, hintRow := -1, hintCol := -1, hintGiven := false
    rows := 1, columns := 1, mines := 0, notified := [] }

/-- A 3 x 3 board with mines everywhere but at `(1, 1)`, as `construct 3 3 8`
builds it on the draws `ringDraws`. -/
def ring3x3 : Minesweeper :=
  { grid := [[9, 9, 9], [9, 0, 9], [9, 9, 9]]
    revealed := [[false, false, false], [false, false, false], [false, false, false]]
    flagged := [[false, false, false], [false, false, false], [false, false, false]]
    score := 0, hintRow := -1, hintCol := -1, hintGiven := false
    rows := 3, columns := 3, mines := 8, notified := [] }

/-- Draws that place the eight mines of `ring3x3`. -/
def ringDraws : List Nat := [0, 0, 0, 1, 0, 2, 1, 0, 1, 2, 2, 0, 2, 1, 2, 2]

/-- The board `line7` after a click on `(0, 4)`. -/
def opened7 : Minesweeper :=
  { line7 with
    revealed := [[false, false, false, false, true, false, false]]
    score := 1, notified := [(0, 4)] }

/-- The board `opened7` after a click on `(0, 2)`. -/
def opened7b : Minesweeper :=
  { opened7 with
    revealed := [[false, false, true, false, true, false, false]]
    score := 2, notified := [(0, 2), (0, 4)] }

/-- The board `opened7b` after a press of the hint button: the hint names
`(0, 1)`. -/
def hinted7 : Minesweeper :=
  { opened7b with hintRow := 0, hintCol := 1, hintGiven := true }

/-- The board `hinted7` after a click on `(0, 0)`, whose cascade reveals the
hinted cell `(0, 1)`; the hint is still given. -/
def stale7 : Minesweeper :=
  { hinted7 with
    revealed := [[true, true, true, false, true, false, false]]
    score := 4, notified := [(0, 1), (0, 0), (0, 2), (0, 4)] }

/-- The board `clear2x2` with its mine placed at `(1, 1)`. -/
def mined2x2 : Minesweeper := { clear2x2 with grid := [[0, 0], [0, 9]] }

end Minesweeper

/-! ## Vectors of vectors -/

namespace Minesweeper

theorem getD_set_same {α : Type} (l : List α) (i : Nat) (x d : α) (h : i < l.length) :
    (l.set i x).getD i d = x := by
  simp [List.getD_eq_getElem?_getD, h]

theorem getD_set_ne {α : Type} (l : List α) (i j : Nat) (x d : α) (h : i ≠ j) :
    (l.set i x).getD j d = l.getD j d := by
  simp [List.getD_eq_getElem?_getD, List.getElem?_set_ne h]

theorem getCell_setCell_ne {α : Type} (d : α) (v : List (List α)) (r c r2 c2 : Int) (x : α)
    (h : ¬ (r2 = r ∧ c2 = c)) : getCell d (setCell v r c x) r2 c2 = getCell d v r2 c2 := by
  unfold getCell setCell
  by_cases h1 : 0 ≤ r2 ∧ 0 ≤ c2
  · by_cases h2 : 0 ≤ r ∧ 0 ≤ c
    · simp only [h1, h2, and_self, if_true]
      by_cases hr : r = r2
      · subst hr
        have hc : c.toNat ≠ c2.toNat := by
          intro hc; apply h; refine ⟨rfl, ?_⟩; omega
        by_cases hlen : r.toNat < v.length
        · rw [getD_set_same _ _ _ _ hlen, getD_set_ne _ _ _ _ _ hc]
        · have : v.set r.toNat ((v.getD r.toNat []).set c.toNat x) = v := by
            apply List.set_eq_of_length_le; omega
          rw [this]
      · have hr2 : r.toNat ≠ r2.toNat := by omega
        rw [getD_set_ne _ _ _ _ _ hr2]
    · simp [h1, h2]
  · simp [h1]

theorem Rect.row_length {α : Type} {R C : Nat} {v : List (List α)} (h : Rect R C v)
    {i : Nat} (hi : i < R) : (v.getD i []).length = C := by
  obtain ⟨hl, hrow⟩ := h
  have hi2 : i < v.length := by omega
  apply hrow
  rw [List.getD_eq_getElem?_getD, List.getElem?_eq_getElem hi2]
  simp

theorem getCell_setCell_same {α : Type} (d : α) {R C : Nat} {v : List (List α)}
    (hv : Rect R C v) (r c : Int) (x : α)
    (hr0 : 0 ≤ r) (hr : r.toNat < R) (hc0 : 0 ≤ c) (hc : c.toNat < C) :
    getCell d (setCell v r c x) r c = x := by
  unfold getCell setCell
  have hlen : r.toNat < v.length := by rw [hv.1]; exact hr
  have hrow := hv.row_length hr
  simp only [hr0, hc0, and_self, if_true]
  rw [getD_set_same _ _ _ _ hlen, getD_set_same _ _ _ _ (by omega)]

theorem Rect.setCell {α : Type} {R C : Nat} {v : List (List α)} (hv : Rect R C v)
    (r c : Int) (x : α) : Rect R C (setCell v r c x) := by
  unfold Minesweeper.setCell
  split
  · refine ⟨by simp [hv.1], ?_⟩
    intro row hrow
    rcases List.mem_or_eq_of_mem_set hrow with h | h
    · exact hv.2 row h
    · subst h
      rw [List.length_set]
      by_cases hr : r.toNat < R
      · exact hv.row_length hr
      · have hlen : v.length ≤ r.toNat := by rw [hv.1]; omega
        have hnone : v[r.toNat]? = none := List.getElem?_eq_none hlen
        have hset : v.set r.toNat ((v.getD r.toNat []).set c.toNat x) = v :=
          List.set_eq_of_length_le hlen
        have hnil : v.getD r.toNat [] = [] := by
          rw [List.getD_eq_getElem?_getD, hnone]; rfl
        rw [hset, hnil] at hrow
        rw [hnil]
        exact hv.2 _ hrow
  · exact hv

theorem Rect.replicate {α : Type} (R C : Nat) (x : α) :
    Rect R C (List.replicate R (List.replicate C x)) := by
  refine ⟨by simp, ?_⟩
  intro row hrow
  rw [List.mem_replicate] at hrow
  rw [hrow.2]; simp

theorem getCell_replicate {α : Type} (d x : α) (R C : Nat) (r c : Int)
    (hr0 : 0 ≤ r) (hr : r.toNat < R) (hc0 : 0 ≤ c) (hc : c.toNat < C) :
    getCell d (List.replicate R (List.replicate C x)) r c = x := by
  unfold getCell
  simp [hr0, hc0, List.getD_eq_getElem?_getD, List.getElem?_replicate, hr, hc]

/-! ## The list of cells and counting over it -/

theorem mem_upTo (n i : Int) : i ∈ upTo n ↔ 0 ≤ i ∧ i < n := by
  unfold upTo
  simp only [List.mem_map, List.mem_range]
  constructor
  · rintro ⟨k, hk, rfl⟩
    simp only [Int.ofNat_eq_coe]
    omega
  · rintro ⟨h0, hn⟩
    exact ⟨i.toNat, by omega, by simp only [Int.ofNat_eq_coe]; omega⟩

theorem nodup_upTo (n : Int) : (upTo n).Nodup := by
  unfold upTo
  apply List.Nodup.map
  · intro a b h
    simpa using h
  · exact List.nodup_range _

theorem length_upTo (n : Int) : (upTo n).length = n.toNat := by
  simp [upTo]

theorem mem_cells (s : Minesweeper) (r c : Int) : (r, c) ∈ cells s ↔ InRange s r c := by
  unfold cells InRange
  rw [List.pair_mem_product, mem_upTo, mem_upTo]
  tauto

theorem nodup_cells (s : Minesweeper) : (cells s).Nodup :=
  List.Nodup.product (nodup_upTo _) (nodup_upTo _)

theorem length_cells (s : Minesweeper) :
    (cells s).length = s.rows.toNat * s.columns.toNat := by
  have h := List.length_product (upTo s.rows) (upTo s.columns)
  rw [length_upTo, length_upTo] at h
  exact h

theorem countP_flip_one {α : Type} (p q : α → Bool) (a : α) :
    ∀ (l : List α), l.Nodup → a ∈ l → p a = false → q a = true →
      (∀ b ∈ l, b ≠ a → q b = p b) → l.countP q = l.countP p + 1
  | [], _, hmem, _, _, _ => by simp at hmem
  | x :: xs, hnd, hmem, hp, hq, hrest => by
    rw [List.nodup_cons] at hnd
    by_cases hx : x = a
    · subst hx
      have hsame : xs.countP q = xs.countP p := by
        apply List.countP_congr
        intro b hb
        have hne : b ≠ x := fun h => hnd.1 (h ▸ hb)
        rw [hrest b (List.mem_cons_of_mem _ hb) hne]
      simp [List.countP_cons, hp, hq, hsame]
    · have hmem2 : a ∈ xs := by
        rcases List.mem_cons.1 hmem with h | h
        · exact absurd h.symm hx
        · exact h
      have ih := countP_flip_one p q a xs hnd.2 hmem2 hp hq
        (fun b hb hne => hrest b (List.mem_cons_of_mem _ hb) hne)
      have hqx : q x = p x := hrest x (List.mem_cons_self _ _) hx
      simp only [List.countP_cons, ih, hqx]
      omega

end Minesweeper

/-! ## Mine placement -/

namespace Minesweeper

theorem mineCount_setCell (s : Minesweeper) (g : List (List Int)) (r c : Int)
    (hg : Rect s.rows.toNat s.columns.toNat g) (hin : InRange s r c)
    (hno : getCell 0 g r c ≠ 9) :
    mineCount { s with grid := setCell g r c 9 } = mineCount { s with grid := g } + 1 := by
  obtain ⟨hr0, hr, hc0, hc⟩ := hin
  unfold mineCount
  apply countP_flip_one _ _ (r, c) _ (nodup_cells _) ((mem_cells _ _ _).2 ⟨hr0, hr, hc0, hc⟩)
  · simp [isMine, hno]
  · simp only [isMine, decide_eq_true_eq]
    exact getCell_setCell_same 0 hg r c 9 hr0 (by omega) hc0 (by omega)
  · rintro ⟨r2, c2⟩ _ hne
    simp only [isMine]
    rw [getCell_setCell_ne]
    intro h
    exact hne (by rw [h.1, h.2])

theorem mineCount_replicate (s : Minesweeper) :
    mineCount { s with
      grid := List.replicate s.rows.toNat (List.replicate s.columns.toNat 0) } = 0 := by
  unfold mineCount
  rw [List.countP_eq_zero]
  rintro ⟨r, c⟩ hmem
  obtain ⟨hr0, hr, hc0, hc⟩ : InRange s r c := (mem_cells _ _ _).1 hmem
  simp only [isMine]
  rw [getCell_replicate 0 0 _ _ r c hr0 (by omega) hc0 (by omega)]
  decide

/-- The invariant of the loop of `placeMines`: the grid keeps its shape, holds
only the values 0 and 9, and gains one mine for each increment of `count`. -/
theorem placeMinesLoop_spec (s : Minesweeper) (hrows : 0 < s.rows) (hcols : 0 < s.columns) :
    ∀ (n : Nat) (draws : List Nat) (count : Int) (g g2 : List (List Int)),
      draws.length ≤ n →
      Rect s.rows.toNat s.columns.toNat g →
      (∀ r c, InRange s r c → getCell 0 g r c = 9 ∨ getCell 0 g r c = 0) →
      count ≤ s.mines →
      placeMinesLoop s.rows s.columns s.mines draws count g = .ok g2 →
      Rect s.rows.toNat s.columns.toNat g2 ∧
      (∀ r c, InRange s r c → getCell 0 g2 r c = 9 ∨ getCell 0 g2 r c = 0) ∧
      (mineCount { s with grid := g2 } : Int)
        = mineCount { s with grid := g } + (s.mines - count) := by
  intro n
  induction n with
  | zero =>
    intro draws count g g2 hlen hg hbin hcount h
    have hnil : draws = [] := List.length_eq_zero.1 (by omega)
    subst hnil
    unfold placeMinesLoop at h
    split at h
    · simp at h
    · injection h with h
      subst h
      exact ⟨hg, hbin, by omega⟩
  | succ n ih =>
    intro draws count g g2 hlen hg hbin hcount h
    unfold placeMinesLoop at h
    split at h
    · rename_i hlt
      split at h
      · simp at h
      · split at h <;> simp at h
      · rename_i r c rest
        have hr : s.rows ≠ 0 := by omega
        have hc : s.columns ≠ 0 := by omega
        simp only [hr, hc, if_false] at h
        have hin : InRange s (Int.tmod (r : Int) s.rows) (Int.tmod (c : Int) s.columns) :=
          ⟨Int.tmod_nonneg _ (by omega), Int.tmod_lt_of_pos _ hrows,
            Int.tmod_nonneg _ (by omega), Int.tmod_lt_of_pos _ hcols⟩
        have hlen2 : rest.length ≤ n := by simp at hlen; omega
        split at h
        · rename_i hno
          have hstep := mineCount_setCell s g _ _ hg hin hno
          have hbin2 : ∀ r2 c2, InRange s r2 c2 →
              getCell 0 (setCell g (Int.tmod (r : Int) s.rows) (Int.tmod (c : Int) s.columns) 9)
                r2 c2 = 9 ∨
              getCell 0 (setCell g (Int.tmod (r : Int) s.rows) (Int.tmod (c : Int) s.columns) 9)
                r2 c2 = 0 := by
            intro r2 c2 h2
            by_cases heq : r2 = Int.tmod (r : Int) s.rows ∧ c2 = Int.tmod (c : Int) s.columns
            · left
              rw [heq.1, heq.2]
              obtain ⟨a, b, c3, d⟩ := hin
              exact getCell_setCell_same 0 hg _ _ 9 a (by omega) c3 (by omega)
            · rw [getCell_setCell_ne _ _ _ _ _ _ _ heq]
              exact hbin r2 c2 h2
          obtain ⟨h1, h2, h3⟩ := ih rest (count + 1) _ g2 hlen2 (hg.setCell _ _ _) hbin2
            (by omega) h
          refine ⟨h1, h2, ?_⟩
          rw [h3, hstep]
          push_cast
          omega
        · exact ih rest count g g2 hlen2 hg hbin hcount h
    · injection h with h
      subst h
      exact ⟨hg, hbin, by omega⟩

end Minesweeper

namespace Minesweeper

/-- When no more than `rows * columns` mines are asked for, some draws make
the loop of `placeMines` finish: each pair of draws may name a cell that holds
no mine yet. -/
theorem placeMinesLoop_can_finish (s : Minesweeper) (hrows : 0 < s.rows)
    (hcols : 0 < s.columns) (hlt : s.mines ≤ s.rows * s.columns) :
    ∀ (n : Nat) (count : Int) (g : List (List Int)),
      (s.mines - count).toNat ≤ n →
      Rect s.rows.toNat s.columns.toNat g →
      (mineCount { s with grid := g } : Int) = count →
      ∃ draws g2, placeMinesLoop s.rows s.columns s.mines draws count g = .ok g2 := by
  intro n
  induction n with
  | zero =>
    intro count g hn _ _
    refine ⟨[], g, ?_⟩
    unfold placeMinesLoop
    rw [if_neg (by omega)]
  | succ n ih =>
    intro count g hn hg hcount
    by_cases hdone : count < s.mines
    · have hcells : (cells s).length = s.rows.toNat * s.columns.toNat := length_cells s
      have hsome : ∃ p ∈ cells s, isMine { s with grid := g } p.1 p.2 = false := by
        by_contra hall
        have hall2 : ∀ p ∈ cells s, isMine { s with grid := g } p.1 p.2 = true := by
          intro p hp
          cases hm : isMine { s with grid := g } p.1 p.2 with
          | true => rfl
          | false => exact absurd ⟨p, hp, hm⟩ hall
        have hfull : mineCount { s with grid := g } = (cells s).length :=
          List.countP_eq_length.2 hall2
        have hprod : ((s.rows.toNat * s.columns.toNat : Nat) : Int) = s.rows * s.columns := by
          push_cast
          rw [Int.toNat_of_nonneg (by omega), Int.toNat_of_nonneg (by omega)]
        rw [hfull, hcells, hprod] at hcount
        omega
      obtain ⟨⟨r, c⟩, hp, hfree⟩ := hsome
      obtain ⟨hr0, hr, hc0, hc⟩ := (mem_cells s r c).1 hp
      have hfree2 : getCell 0 g r c ≠ 9 := by simpa [isMine] using hfree
      have hstep := mineCount_setCell s g r c hg ⟨hr0, hr, hc0, hc⟩ hfree2
      obtain ⟨draws, g2, hrun⟩ := ih (count + 1) (setCell g r c 9) (by omega)
        (hg.setCell r c 9) (by rw [hstep, ← hcount]; push_cast; ring)
      refine ⟨r.toNat :: c.toNat :: draws, g2, ?_⟩
      have er : Int.tmod (r.toNat : Int) s.rows = r := by
        rw [Int.toNat_of_nonneg hr0, Int.tmod_eq_emod hr0 (by omega)]
        exact Int.emod_eq_of_lt hr0 hr
      have ec : Int.tmod (c.toNat : Int) s.columns = c := by
        rw [Int.toNat_of_nonneg hc0, Int.tmod_eq_emod hc0 (by omega)]
        exact Int.emod_eq_of_lt hc0 hc
      unfold placeMinesLoop
      rw [if_pos hdone]
      have h1 : s.rows ≠ 0 := by omega
      have h2 : s.columns ≠ 0 := by omega
      simp only [h1, h2, if_false, er, ec]
      rw [if_pos hfree2]
      exact hrun
    · refine ⟨[], g, ?_⟩
      unfold placeMinesLoop
      rw [if_neg hdone]

/-- C1: on a board with `rows > 0`, `columns > 0` and
`0 <= mines < rows * columns` whose grid is all clear, there are draws on
which `placeMines` finishes, and every run of `placeMines` that finishes
leaves exactly `mines` cells of the grid with the value 9 (counted over
distinct coordinates, so no mine is placed twice), every other cell with the
value 0, the grid with its dimensions, and every other member untouched. -/
theorem placeMines_exactly_mines (s : Minesweeper)
    (hrows : 0 < s.rows) (hcols : 0 < s.columns) (hmines : 0 ≤ s.mines)
    (hlt : s.mines < s.rows * s.columns)
    (hclear : s.grid = List.replicate s.rows.toNat (List.replicate s.columns.toNat 0)) :
    (∃ draws t, placeMines draws s = .ok t) ∧
    ∀ draws t, placeMines draws s = .ok t →
      (mineCount t : Int) = s.mines ∧
      (∀ r c, InRange s r c → isMine t r c = false → getCell 0 t.grid r c = 0) ∧
      Rect s.rows.toNat s.columns.toNat t.grid ∧
      t = { s with grid := t.grid } := by
  constructor
  · obtain ⟨draws2, g2, hrun⟩ := placeMinesLoop_can_finish s hrows hcols (le_of_lt hlt)
      (s.mines - 0).toNat 0 s.grid (le_refl _)
      (by rw [hclear]; exact Rect.replicate _ _ _)
      (by
        have e : ({ s with grid := s.grid } : Minesweeper) = { s with
            grid := List.replicate s.rows.toNat (List.replicate s.columns.toNat 0) } := by
          rw [← hclear]
        rw [e, mineCount_replicate]
        rfl)
    refine ⟨draws2, { s with grid := g2 }, ?_⟩
    unfold placeMines
    rw [hrun]
  intro draws t h
  unfold placeMines at h
  split at h
  · rename_i g hg
    injection h with h
    subst h
    rw [hclear] at hg
    have hbin : ∀ r c, InRange s r c →
        getCell 0 (List.replicate s.rows.toNat (List.replicate s.columns.toNat (0 : Int))) r c = 9 ∨
        getCell 0 (List.replicate s.rows.toNat (List.replicate s.columns.toNat (0 : Int))) r c = 0 := by
      intro r c hin
      obtain ⟨a, b, c3, d⟩ := hin
      right
      exact getCell_replicate 0 0 _ _ r c a (by omega) c3 (by omega)
    obtain ⟨h1, h2, h3⟩ := placeMinesLoop_spec s hrows hcols draws.length draws 0 _ g
      (le_refl _) (Rect.replicate _ _ _) hbin hmines hg
    rw [mineCount_replicate] at h3
    refine ⟨?_, ?_, h1, rfl⟩
    · rw [h3]; simp
    · intro r c hin hno
      rcases h2 r c hin with h9 | h0
      · simp [isMine, h9] at hno
      · exact h0
  · simp at h

/-- C1, at a concrete board: the draws 3, 3 put the one mine of a 2 x 2 board
at `(1, 1)`. -/
theorem placeMines_exactly_mines_witness :
    placeMines [3, 3] clear2x2 = .ok mined2x2 ∧
    ((∃ draws t, placeMines draws clear2x2 = .ok t) ∧
     ∀ draws t, placeMines draws clear2x2 = .ok t →
      (mineCount t : Int) = clear2x2.mines ∧
      (∀ r c, InRange clear2x2 r c → isMine t r c = false → getCell 0 t.grid r c = 0) ∧
      Rect clear2x2.rows.toNat clear2x2.columns.toNat t.grid ∧
      t = { clear2x2 with grid := t.grid }) :=
  ⟨by decide,
   placeMines_exactly_mines clear2x2 (by decide) (by decide) (by decide) (by decide)
     (by decide)⟩

end Minesweeper

/-! ## Counting adjacent mines -/

namespace Minesweeper

theorem foldl_count {α : Type} (p : α → Bool) :
    ∀ (l : List α) (n : Int),
      l.foldl (fun count j => if p j then count + 1 else count) n = n + l.countP p
  | [], n => by simp
  | x :: xs, n => by
    rw [List.foldl_cons, foldl_count p xs, List.countP_cons]
    split
    · simp_all; omega
    · simp_all

theorem nodup_ring8 (r c : Int) : (ring8 r c).Nodup := by
  simp [ring8, List.nodup_cons]
  omega

theorem mem_ring8 (r c r2 c2 : Int) : (r2, c2) ∈ ring8 r c ↔ adjacent r c r2 c2 = true := by
  simp only [ring8, adjacent, List.mem_cons, Prod.mk.injEq, List.mem_singleton,
    decide_eq_true_eq, List.mem_nil_iff, or_false]
  omega

theorem inGrid_iff (s : Minesweeper) (r c : Int) : inGrid s r c = true ↔ InRange s r c := by
  simp [inGrid, InRange, and_assoc]

/-- What the loops of `countAdjacentMines` add up: the mines of the eight
neighbours, and the cell itself when it is a mine. -/
theorem countAdjacentMines_eq_block (s : Minesweeper) (r c : Int) :
    countAdjacentMines s r c =
      ((ring8 r c).countP (fun p => inGrid s p.1 p.2 && isMine s p.1 p.2) : Int)
      + (if inGrid s r c && isMine s r c then 1 else 0) := by
  unfold countAdjacentMines
  simp only [foldl_count]
  simp only [around, ring8, List.foldl, List.countP_cons, List.countP_nil, isMine]
  have e : ∀ x : Int, x + -1 = x - 1 := fun x => by ring
  simp only [e]
  simp
  ring

theorem neighbourMines_eq_ring (s : Minesweeper) (r c : Int) :
    neighbourMines s r c =
      (ring8 r c).countP (fun p => inGrid s p.1 p.2 && isMine s p.1 p.2) := by
  unfold neighbourMines
  rw [List.countP_eq_length_filter, List.countP_eq_length_filter]
  apply List.Perm.length_eq
  rw [List.perm_ext_iff_of_nodup ((nodup_cells s).filter _) ((nodup_ring8 r c).filter _)]
  rintro ⟨r2, c2⟩
  simp only [List.mem_filter, mem_cells, mem_ring8, Bool.and_eq_true, inGrid_iff]
  tauto

/-- The result of `countAdjacentMines` in terms of the neighbours proper. -/
theorem countAdjacentMines_eq (s : Minesweeper) (r c : Int) :
    countAdjacentMines s r c =
      (neighbourMines s r c : Int) + (if inGrid s r c && isMine s r c then 1 else 0) := by
  rw [countAdjacentMines_eq_block, neighbourMines_eq_ring]

theorem countAdjacentMines_nonneg (s : Minesweeper) (r c : Int) :
    0 ≤ countAdjacentMines s r c := by
  rw [countAdjacentMines_eq]
  split <;> omega

end Minesweeper

/-! ## Sequential loops that may fail -/

namespace Minesweeper

theorem foldlM_ok_inv {σ β : Type} (f : σ → β → Except Fault σ) (I : List β → σ → Prop) :
    ∀ (l done : List β) (s t : σ),
      (∀ d x st st2, x ∈ l → I d st → f st x = .ok st2 → I (d ++ [x]) st2) →
      I done s → l.foldlM f s = .ok t → I (done ++ l) t
  | [], done, s, t, _, hI, h => by
    simp only [List.foldlM_nil, pure, Except.pure] at h
    injection h with h
    subst h
    simpa using hI
  | x :: xs, done, s, t, hstep, hI, h => by
    rw [List.foldlM_cons] at h
    cases hf : f s x with
    | error e => rw [hf] at h; simp [bind, Except.bind] at h
    | ok s2 =>
      rw [hf] at h
      simp only [bind, Except.bind] at h
      have h2 := foldlM_ok_inv f I xs (done ++ [x]) s2 t
        (fun d y st st2 hy => hstep d y st st2 (List.mem_cons_of_mem _ hy))
        (hstep done x s s2 (List.mem_cons_self _ _) hI hf) h
      simpa using h2

theorem foldlM_ok_total {σ β : Type} (f : σ → β → Except Fault σ) (I : σ → Prop) :
    ∀ (l : List β) (s : σ),
      (∀ x st, x ∈ l → I st → ∃ st2, f st x = .ok st2 ∧ I st2) →
      I s → ∃ t, l.foldlM f s = .ok t ∧ I t
  | [], s, _, hI => ⟨s, rfl, hI⟩
  | x :: xs, s, hstep, hI => by
    obtain ⟨s2, hf, hI2⟩ := hstep x s (List.mem_cons_self _ _) hI
    obtain ⟨t, ht, hIt⟩ := foldlM_ok_total f I xs s2
      (fun y st hy => hstep y st (List.mem_cons_of_mem _ hy)) hI2
    refine ⟨t, ?_, hIt⟩
    rw [List.foldlM_cons, hf]
    simpa [bind, Except.bind] using ht

/-- The nested loops of `revealCell` as one loop over the nine offsets. -/
theorem revealAround_eq (call : Minesweeper → Int → Int → Except Fault Minesweeper)
    (row col : Int) (s : Minesweeper) :
    revealAround call row col s =
      offsets.foldlM (fun st ij =>
        if inGrid st (row + ij.1) (col + ij.2) then call st (row + ij.1) (col + ij.2)
        else .ok st) s := by
  simp only [revealAround, around, offsets, List.foldlM_cons, List.foldlM_nil, bind_assoc,
    pure_bind]

theorem revealCell_succ (fuel : Nat) (s : Minesweeper) (row col : Int) :
    revealCell (fuel + 1) s row col =
      if isRevealed s row col then .ok s
      else if countAdjacentMines (markRevealed s row col) row col > 0 then
        .ok (markRevealed s row col)
      else revealAround (revealCell fuel) row col (markRevealed s row col) := rfl

theorem mem_offsets (i j : Int) :
    (i, j) ∈ offsets ↔ -1 ≤ i ∧ i ≤ 1 ∧ -1 ≤ j ∧ j ≤ 1 := by
  simp only [offsets, List.mem_cons, Prod.mk.injEq, List.mem_singleton, List.mem_nil_iff,
    or_false]
  omega

end Minesweeper

/-! ## The first step of a reveal -/

namespace Minesweeper

theorem countAdjacentMines_congr {s t : Minesweeper} (hg : t.grid = s.grid)
    (hr : t.rows = s.rows) (hc : t.columns = s.columns) (r c : Int) :
    countAdjacentMines t r c = countAdjacentMines s r c := by
  unfold countAdjacentMines inGrid
  rw [hg, hr, hc]

theorem cells_congr {s t : Minesweeper} (hr : t.rows = s.rows) (hc : t.columns = s.columns) :
    cells t = cells s := by
  unfold cells
  rw [hr, hc]

theorem revealedCount_add_unrevealedCount (s : Minesweeper) :
    revealedCount s + unrevealedCount s = (cells s).length := by
  unfold revealedCount unrevealedCount
  rw [List.length_eq_countP_add_countP (fun p => isRevealed s p.1 p.2) (cells s)]
  congr 1
  apply List.countP_congr
  intro p _
  simp

theorem isRevealed_markRevealed_same (s : Minesweeper) (r c : Int) (hwf : WellFormed s)
    (hin : InRange s r c) : isRevealed (markRevealed s r c) r c = true := by
  obtain ⟨hr0, hr, hc0, hc⟩ := hin
  exact getCell_setCell_same false hwf.2.2.2.1 r c true hr0 (by omega) hc0 (by omega)

theorem isRevealed_markRevealed_ne (s : Minesweeper) (r c r2 c2 : Int)
    (h : ¬ (r2 = r ∧ c2 = c)) :
    isRevealed (markRevealed s r c) r2 c2 = isRevealed s r2 c2 :=
  getCell_setCell_ne false s.revealed r c r2 c2 true h

theorem wellFormed_markRevealed (s : Minesweeper) (r c : Int) (hwf : WellFormed s) :
    WellFormed (markRevealed s r c) :=
  ⟨hwf.1, hwf.2.1, hwf.2.2.1, hwf.2.2.2.1.setCell r c true, hwf.2.2.2.2⟩

theorem unrevealedCount_markRevealed (s : Minesweeper) (r c : Int) (hwf : WellFormed s)
    (hin : InRange s r c) (hno : isRevealed s r c = false) :
    unrevealedCount (markRevealed s r c) + 1 = unrevealedCount s := by
  symm
  unfold unrevealedCount
  have hcells : cells (markRevealed s r c) = cells s := rfl
  rw [hcells]
  apply countP_flip_one _ _ (r, c) _ (nodup_cells _) ((mem_cells _ _ _).2 hin)
  · simp [isRevealed_markRevealed_same s r c hwf hin]
  · simp [hno]
  · rintro ⟨r2, c2⟩ _ hne
    have hne2 : ¬ (r2 = r ∧ c2 = c) := fun h => hne (by rw [h.1, h.2])
    simp [isRevealed_markRevealed_ne s r c r2 c2 hne2]

theorem newlyRevealed_markRevealed (s : Minesweeper) (r c r2 c2 : Int) (hwf : WellFormed s)
    (hin : InRange s r c) (hno : isRevealed s r c = false) :
    NewlyRevealed s (markRevealed s r c) r2 c2 ↔ (r2 = r ∧ c2 = c) := by
  unfold NewlyRevealed
  constructor
  · rintro ⟨h1, h2⟩
    by_contra hne
    rw [isRevealed_markRevealed_ne s r c r2 c2 hne, h1] at h2
    exact Bool.false_ne_true h2
  · rintro ⟨rfl, rfl⟩
    exact ⟨hno, isRevealed_markRevealed_same s r2 c2 hwf hin⟩

end Minesweeper

/-! ## Composing parts of a reveal -/

namespace Minesweeper

theorem Cascade.cascade_refl (roots : Int → Int → Prop) (s : Minesweeper) (hwf : WellFormed s) :
    Cascade roots s s where
  grid_eq := rfl
  flagged_eq := rfl
  hintRow_eq := rfl
  hintCol_eq := rfl
  hintGiven_eq := rfl
  rows_eq := rfl
  columns_eq := rfl
  mines_eq := rfl
  wellFormed := hwf
  mono := fun _ _ h => h
  inRange := fun r c h => by
    obtain ⟨h1, h2⟩ := h
    rw [h1] at h2
    exact absurd h2 Bool.false_ne_true
  log := ⟨[], by simp, List.nodup_nil, fun r c => by
    constructor
    · intro h; simp at h
    · rintro ⟨h1, h2⟩
      rw [h1] at h2
      exact absurd h2 Bool.false_ne_true, by simp, by simp⟩
  parent := fun r c h => by
    obtain ⟨h1, h2⟩ := h
    rw [h1] at h2
    exact absurd h2 Bool.false_ne_true

theorem Cascade.markRevealed (s : Minesweeper) (r c : Int) (hwf : WellFormed s)
    (hin : InRange s r c) (hno : isRevealed s r c = false) :
    Cascade (fun a b => a = r ∧ b = c) s (markRevealed s r c) where
  grid_eq := rfl
  flagged_eq := rfl
  hintRow_eq := rfl
  hintCol_eq := rfl
  hintGiven_eq := rfl
  rows_eq := rfl
  columns_eq := rfl
  mines_eq := rfl
  wellFormed := wellFormed_markRevealed s r c hwf
  mono := fun r2 c2 h => by
    by_cases heq : r2 = r ∧ c2 = c
    · rw [heq.1, heq.2] at h
      rw [hno] at h
      exact absurd h Bool.false_ne_true
    · rw [isRevealed_markRevealed_ne s r c r2 c2 heq]
      exact h
  inRange := fun r2 c2 h => by
    obtain ⟨h1, h2⟩ := (newlyRevealed_markRevealed s r c r2 c2 hwf hin hno).1 h
    rw [h1, h2]
    exact hin
  log := ⟨[(r, c)], rfl, List.nodup_singleton _, fun r2 c2 => by
    rw [newlyRevealed_markRevealed s r c r2 c2 hwf hin hno]
    simp, by simp [Minesweeper.markRevealed], by
    simpa using unrevealedCount_markRevealed s r c hwf hin hno⟩
  parent := fun r2 c2 h =>
    Or.inl ((newlyRevealed_markRevealed s r c r2 c2 hwf hin hno).1 h)

theorem Cascade.inRange_iff {roots : Int → Int → Prop} {s t : Minesweeper}
    (h : Cascade roots s t) (r c : Int) : InRange t r c ↔ InRange s r c := by
  unfold InRange
  rw [h.rows_eq, h.columns_eq]

theorem Cascade.count_eq {roots : Int → Int → Prop} {s t : Minesweeper}
    (h : Cascade roots s t) (r c : Int) :
    countAdjacentMines t r c = countAdjacentMines s r c :=
  countAdjacentMines_congr h.grid_eq h.rows_eq h.columns_eq r c

/-- A cell newly revealed over two parts of a run is newly revealed in
exactly one of them. -/
theorem newlyRevealed_trans_iff {s t u : Minesweeper}
    (hst : ∀ r c, isRevealed s r c = true → isRevealed t r c = true)
    (htu : ∀ r c, isRevealed t r c = true → isRevealed u r c = true) (r c : Int) :
    NewlyRevealed s u r c ↔ NewlyRevealed s t r c ∨ NewlyRevealed t u r c := by
  unfold NewlyRevealed
  constructor
  · rintro ⟨h1, h2⟩
    cases ht : isRevealed t r c with
    | true => exact Or.inl ⟨h1, rfl⟩
    | false => exact Or.inr ⟨rfl, h2⟩
  · rintro (⟨h1, h2⟩ | ⟨h1, h2⟩)
    · exact ⟨h1, htu r c h2⟩
    · refine ⟨?_, h2⟩
      cases hs : isRevealed s r c with
      | true => rw [hst r c hs] at h1; exact absurd h1.symm Bool.false_ne_true
      | false => rfl

theorem Cascade.cascade_trans {R1 R2 : Int → Int → Prop} {s t u : Minesweeper}
    (h1 : Cascade R1 s t) (h2 : Cascade R2 t u) :
    Cascade (fun a b => R1 a b ∨ R2 a b) s u where
  grid_eq := h2.grid_eq.trans h1.grid_eq
  flagged_eq := h2.flagged_eq.trans h1.flagged_eq
  hintRow_eq := h2.hintRow_eq.trans h1.hintRow_eq
  hintCol_eq := h2.hintCol_eq.trans h1.hintCol_eq
  hintGiven_eq := h2.hintGiven_eq.trans h1.hintGiven_eq
  rows_eq := h2.rows_eq.trans h1.rows_eq
  columns_eq := h2.columns_eq.trans h1.columns_eq
  mines_eq := h2.mines_eq.trans h1.mines_eq
  wellFormed := h2.wellFormed
  mono := fun r c h => h2.mono r c (h1.mono r c h)
  inRange := fun r c h => by
    rcases (newlyRevealed_trans_iff h1.mono h2.mono r c).1 h with h | h
    · exact h1.inRange r c h
    · exact (h1.inRange_iff r c).1 (h2.inRange r c h)
  log := by
    obtain ⟨l1, hn1, hd1, hm1, hs1, hc1⟩ := h1.log
    obtain ⟨l2, hn2, hd2, hm2, hs2, hc2⟩ := h2.log
    refine ⟨l2 ++ l1, ?_, ?_, ?_, ?_, ?_⟩
    · rw [hn2, hn1, List.append_assoc]
    · rw [List.nodup_append]
      refine ⟨hd2, hd1, ?_⟩
      rintro ⟨r, c⟩ hin2 hin1
      have a := ((hm2 r c).1 hin2).1
      have b := ((hm1 r c).1 hin1).2
      rw [a] at b
      exact Bool.false_ne_true b
    · intro r c
      rw [List.mem_append, hm1, hm2, newlyRevealed_trans_iff h1.mono h2.mono]
      tauto
    · rw [hs2, hs1, List.length_append]
      push_cast
      ring
    · rw [List.length_append]
      omega
  parent := fun r c h => by
    rcases (newlyRevealed_trans_iff h1.mono h2.mono r c).1 h with h | h
    · rcases h1.parent r c h with hr | ⟨qr, qc, hq, hz, ha⟩
      · exact Or.inl (Or.inl hr)
      · exact Or.inr ⟨qr, qc,
          (newlyRevealed_trans_iff h1.mono h2.mono qr qc).2 (Or.inl hq), hz, ha⟩
    · rcases h2.parent r c h with hr | ⟨qr, qc, hq, hz, ha⟩
      · exact Or.inl (Or.inr hr)
      · exact Or.inr ⟨qr, qc,
          (newlyRevealed_trans_iff h1.mono h2.mono qr qc).2 (Or.inr hq),
          by rw [← h1.count_eq]; exact hz, ha⟩

/-- The roots of a run may be replaced by any description that covers the
newly revealed roots, possibly by giving them a parent. -/
theorem Cascade.reroot {R1 R2 : Int → Int → Prop} {s t : Minesweeper}
    (h : Cascade R1 s t)
    (hroots : ∀ r c, NewlyRevealed s t r c → R1 r c → R2 r c ∨
      ∃ qr qc, NewlyRevealed s t qr qc ∧ countAdjacentMines s qr qc = 0 ∧
        adjacent qr qc r c = true) :
    Cascade R2 s t :=
  { h with
    parent := fun r c hn => by
      rcases h.parent r c hn with hr | hp
      · exact hroots r c hn hr
      · exact Or.inr hp }

theorem Closed.closed_trans {R1 R2 : Int → Int → Prop} {s t u : Minesweeper}
    (h1 : Cascade R1 s t) (h2 : Cascade R2 t u) (hc1 : Closed s t) (hc2 : Closed t u) :
    Closed s u := by
  intro r c hn hz r2 c2 hin hadj
  rcases (newlyRevealed_trans_iff h1.mono h2.mono r c).1 hn with hn | hn
  · exact h2.mono r2 c2 (hc1 r c hn hz r2 c2 hin hadj)
  · exact hc2 r c hn (by rw [h1.count_eq]; exact hz) r2 c2 ((h1.inRange_iff r2 c2).2 hin) hadj

end Minesweeper

/-! ## What `revealCell` does -/

namespace Minesweeper

theorem not_newlyRevealed_self (s : Minesweeper) (r c : Int) : ¬ NewlyRevealed s s r c := by
  rintro ⟨h1, h2⟩
  rw [h1] at h2
  exact Bool.false_ne_true h2

theorem Closed.closed_refl (s : Minesweeper) : Closed s s :=
  fun r c hn => absurd hn (not_newlyRevealed_self s r c)

theorem adjacent_iff (r c r2 c2 : Int) :
    adjacent r c r2 c2 = true ↔
      (r - 1 ≤ r2 ∧ r2 ≤ r + 1 ∧ c - 1 ≤ c2 ∧ c2 ≤ c + 1 ∧ ¬ (r2 = r ∧ c2 = c)) := by
  simp only [adjacent, decide_eq_true_eq]
  omega

/-- Partial correctness of `revealCell`: whatever the fuel, a run that returns
has done a cascade rooted at `(row, col)`, closed under the neighbours of its
cells without adjacent mines, and has `(row, col)` revealed. -/
theorem revealCell_spec : ∀ (fuel : Nat) (s t : Minesweeper) (row col : Int),
    WellFormed s → InRange s row col → revealCell fuel s row col = .ok t →
    Cascade (fun a b => a = row ∧ b = col) s t ∧ Closed s t ∧ isRevealed t row col = true
  | 0, s, t, row, col, _, _, h => by simp [revealCell] at h
  | fuel + 1, s, t, row, col, hwf, hin, h => by
    rw [revealCell_succ] at h
    split at h
    · rename_i hrev
      injection h with h
      subst h
      exact ⟨Cascade.cascade_refl _ s hwf, Closed.closed_refl s, hrev⟩
    · rename_i hrev
      have hno : isRevealed s row col = false := by simpa using hrev
      have hbase := Cascade.markRevealed s row col hwf hin hno
      split at h
      · rename_i hpos
        injection h with h
        subst h
        refine ⟨hbase, ?_, isRevealed_markRevealed_same s row col hwf hin⟩
        intro r c hn hz
        obtain ⟨e1, e2⟩ := (newlyRevealed_markRevealed s row col r c hwf hin hno).1 hn
        rw [e1, e2, ← hbase.count_eq] at hz
        omega
      · rename_i hzero
        have hz : countAdjacentMines s row col = 0 := by
          have h0 := countAdjacentMines_nonneg (markRevealed s row col) row col
          rw [← hbase.count_eq]
          omega
        rw [revealAround_eq] at h
        have hI := foldlM_ok_inv _
          (fun done st =>
            Cascade (fun a b => ∃ ij ∈ offsets, a = row + ij.1 ∧ b = col + ij.2)
              (markRevealed s row col) st ∧
            Closed (markRevealed s row col) st ∧
            ∀ ij ∈ done, InRange s (row + ij.1) (col + ij.2) →
              isRevealed st (row + ij.1) (col + ij.2) = true)
          offsets [] (markRevealed s row col) t
          (by
            intro d x st st2 hx hI hbody
            obtain ⟨hc, hcl, hdone⟩ := hI
            split at hbody
            · rename_i hgrid
              obtain ⟨hc2, hcl2, hrev2⟩ := revealCell_spec fuel st st2 _ _ hc.wellFormed
                ((inGrid_iff _ _ _).1 hgrid) hbody
              refine ⟨(hc.cascade_trans hc2).reroot ?_, Closed.closed_trans hc hc2 hcl hcl2, ?_⟩
              · intro r c _ hr
                left
                rcases hr with hr | ⟨e1, e2⟩
                · exact hr
                · exact ⟨x, hx, e1, e2⟩
              · intro ij hij hinr
                rcases List.mem_append.1 hij with hij | hij
                · exact hc2.mono _ _ (hdone ij hij hinr)
                · rw [List.mem_singleton] at hij
                  subst hij
                  exact hrev2
            · rename_i hgrid
              injection hbody with hbody
              subst hbody
              refine ⟨hc, hcl, ?_⟩
              intro ij hij hinr
              rcases List.mem_append.1 hij with hij | hij
              · exact hdone ij hij hinr
              · rw [List.mem_singleton] at hij
                subst hij
                exact absurd ((inGrid_iff _ _ _).2 ((hc.inRange_iff _ _).2 hinr)) hgrid)
          ⟨Cascade.cascade_refl _ _ hbase.wellFormed, Closed.closed_refl _, by simp⟩ h
        obtain ⟨hc, hcl, hdone⟩ := hI
        have hrevt : isRevealed t row col = true :=
          hc.mono _ _ (isRevealed_markRevealed_same s row col hwf hin)
        have hnew : NewlyRevealed s t row col := ⟨hno, hrevt⟩
        refine ⟨(hbase.cascade_trans hc).reroot ?_, ?_, hrevt⟩
        · intro r c _ hr
          rcases hr with hr | ⟨⟨i, j⟩, hij, e1, e2⟩
          · exact Or.inl hr
          · rw [mem_offsets] at hij
            by_cases h00 : i = 0 ∧ j = 0
            · left
              simp only at e1 e2
              omega
            · right
              refine ⟨row, col, hnew, hz, ?_⟩
              rw [adjacent_iff]
              simp only at e1 e2
              omega
        · intro r c hn hzr r2 c2 hin2 hadj
          rcases (newlyRevealed_trans_iff hbase.mono hc.mono r c).1 hn with hn | hn
          · obtain ⟨e1, e2⟩ := (newlyRevealed_markRevealed s row col r c hwf hin hno).1 hn
            subst e1 e2
            rw [adjacent_iff] at hadj
            have hmem : (r2 - r, c2 - c) ∈ offsets := by
              rw [mem_offsets]; omega
            have := hdone (r2 - r, c2 - c) (by simpa using hmem)
              (by simpa using hin2)
            simpa using this
          · exact hcl r c hn (by rw [hbase.count_eq]; exact hzr) r2 c2 hin2 hadj

end Minesweeper

namespace Minesweeper

theorem Cascade.unrevealed_le {R : Int → Int → Prop} {s t : Minesweeper}
    (h : Cascade R s t) : unrevealedCount t ≤ unrevealedCount s := by
  obtain ⟨l, _, _, _, _, hc⟩ := h.log
  omega

/-- Termination of `revealCell`: a recursion depth above the number of
unrevealed cells is never used up. -/
theorem revealCell_total : ∀ (fuel : Nat) (s : Minesweeper) (row col : Int),
    WellFormed s → InRange s row col → unrevealedCount s < fuel →
    ∃ t, revealCell fuel s row col = .ok t
  | 0, _, _, _, _, _, h => absurd h (Nat.not_lt_zero _)
  | fuel + 1, s, row, col, hwf, hin, hfuel => by
    rw [revealCell_succ]
    split
    · exact ⟨s, rfl⟩
    · rename_i hrev
      have hno : isRevealed s row col = false := by simpa using hrev
      have hbase := Cascade.markRevealed s row col hwf hin hno
      have hcount := unrevealedCount_markRevealed s row col hwf hin hno
      split
      · exact ⟨_, rfl⟩
      · rw [revealAround_eq]
        obtain ⟨t, ht, _⟩ := foldlM_ok_total
          (fun st (ij : Int × Int) =>
            if inGrid st (row + ij.1) (col + ij.2) then
              revealCell fuel st (row + ij.1) (col + ij.2)
            else .ok st)
          (fun st => Cascade (fun _ _ => True) (markRevealed s row col) st)
          offsets (markRevealed s row col)
          (by
            intro x st _ hI
            dsimp only
            split
            · rename_i hgrid
              have hle := hI.unrevealed_le
              obtain ⟨st2, h2⟩ := revealCell_total fuel st _ _ hI.wellFormed
                ((inGrid_iff _ _ _).1 hgrid) (by omega)
              obtain ⟨hc2, _, _⟩ := revealCell_spec fuel st st2 _ _ hI.wellFormed
                ((inGrid_iff _ _ _).1 hgrid) h2
              exact ⟨st2, h2, (hI.cascade_trans hc2).reroot (fun _ _ _ _ => Or.inl trivial)⟩
            · exact ⟨st, rfl, hI⟩)
          (Cascade.cascade_refl _ _ hbase.wellFormed)
        exact ⟨t, ht⟩

end Minesweeper

namespace Minesweeper

theorem foldlM_ok_mono {σ β : Type} (f g : σ → β → Except Fault σ)
    (hfg : ∀ x st st2, f st x = .ok st2 → g st x = .ok st2) :
    ∀ (l : List β) (s t : σ), l.foldlM f s = .ok t → l.foldlM g s = .ok t
  | [], _, _, h => h
  | x :: xs, s, t, h => by
    rw [List.foldlM_cons] at h
    rw [List.foldlM_cons]
    cases hf : f s x with
    | error e => rw [hf] at h; simp [bind, Except.bind] at h
    | ok s2 =>
      rw [hf] at h
      rw [hfg x s s2 hf]
      exact foldlM_ok_mono f g hfg xs s2 t h

/-- A run of `revealCell` that returns does so with the same result at any
greater recursion depth. -/
theorem revealCell_fuel_succ : ∀ (fuel : Nat) (s t : Minesweeper) (row col : Int),
    revealCell fuel s row col = .ok t → revealCell (fuel + 1) s row col = .ok t
  | 0, _, _, _, _, h => by simp [revealCell] at h
  | fuel + 1, s, t, row, col, h => by
    rw [revealCell_succ] at h
    rw [revealCell_succ]
    split
    · rename_i hrev
      rw [if_pos hrev] at h
      exact h
    · rename_i hrev
      rw [if_neg hrev] at h
      split
      · rename_i hpos
        rw [if_pos hpos] at h
        exact h
      · rename_i hpos
        rw [if_neg hpos, revealAround_eq] at h
        rw [revealAround_eq]
        refine foldlM_ok_mono _ _ ?_ offsets _ t h
        intro x st st2 hstep
        split
        · rename_i hgrid
          rw [if_pos hgrid] at hstep
          exact revealCell_fuel_succ fuel st st2 _ _ hstep
        · rename_i hgrid
          rw [if_neg hgrid] at hstep
          exact hstep

theorem revealCell_fuel_le (s t : Minesweeper) (row col : Int) (fuel : Nat)
    (h : revealCell fuel s row col = .ok t) :
    ∀ fuel2, fuel ≤ fuel2 → revealCell fuel2 s row col = .ok t := by
  intro fuel2 hle
  induction fuel2, hle using Nat.le_induction with
  | base => exact h
  | succ n _ ih => exact revealCell_fuel_succ n s t row col ih

/-- The result of `revealCell` does not depend on the recursion depth it is
allowed. -/
theorem revealCell_fuel_irrelevant (s t1 t2 : Minesweeper) (row col : Int) (f1 f2 : Nat)
    (h1 : revealCell f1 s row col = .ok t1) (h2 : revealCell f2 s row col = .ok t2) :
    t1 = t2 := by
  have a := revealCell_fuel_le s t1 row col f1 h1 (max f1 f2) (le_max_left _ _)
  have b := revealCell_fuel_le s t2 row col f2 h2 (max f1 f2) (le_max_right _ _)
  rw [a] at b
  injection b

theorem unrevealedCount_le (s : Minesweeper) :
    unrevealedCount s ≤ s.rows.toNat * s.columns.toNat := by
  rw [← length_cells]
  exact List.countP_le_length _

/-- A cell whose 3 x 3 block holds no mine has no mine next to it. -/
theorem not_mine_of_count_zero (s : Minesweeper) (r c r2 c2 : Int)
    (hz : countAdjacentMines s r c = 0) (hin : InRange s r2 c2)
    (hadj : adjacent r c r2 c2 = true) : isMine s r2 c2 = false := by
  rw [countAdjacentMines_eq_block] at hz
  have hring : (ring8 r c).countP (fun p => inGrid s p.1 p.2 && isMine s p.1 p.2) = 0 := by
    split at hz <;> omega
  rw [List.countP_eq_zero] at hring
  have h := hring (r2, c2) ((mem_ring8 r c r2 c2).2 hadj)
  simp only [Bool.and_eq_true, not_and, Bool.not_eq_true] at h
  exact h ((inGrid_iff s r2 c2).2 hin)

/-- On a cell that is no mine, `countAdjacentMines` is the number of
neighbouring mines. -/
theorem countAdjacentMines_of_not_mine (s : Minesweeper) (r c : Int)
    (h : isMine s r c = false) : countAdjacentMines s r c = (neighbourMines s r c : Int) := by
  rw [countAdjacentMines_eq, h]
  simp

/-- A cascade whose roots are no mines reveals no mine. -/
theorem Cascade.not_mine {R : Int → Int → Prop} {s t : Minesweeper} (h : Cascade R s t)
    (hroots : ∀ r c, R r c → isMine s r c = false) (r c : Int)
    (hn : NewlyRevealed s t r c) : isMine s r c = false := by
  rcases h.parent r c hn with hr | ⟨qr, qc, _, hz, hadj⟩
  · exact hroots r c hr
  · exact not_mine_of_count_zero s qr qc r c hz (h.inRange r c hn) hadj

/-- C3: on a well-formed board and a coordinate of the grid, `revealCell`
returns whenever its recursion depth may exceed the number of unrevealed
cells; the calls that pass the `revealed` guard (the cells added to
`notified`) are pairwise distinct cells that were unrevealed before, so there
are at most as many as unrevealed cells, which is at most `rows * columns`;
and the state returned is the same for every recursion depth that suffices. -/
theorem revealCell_terminates_expanding_once (s : Minesweeper) (row col : Int)
    (hwf : WellFormed s) (hin : InRange s row col) :
    (∀ fuel, unrevealedCount s < fuel → ∃ t, revealCell fuel s row col = .ok t) ∧
    (∀ fuel t, revealCell fuel s row col = .ok t →
      ∃ l : List (Int × Int), t.notified = l ++ s.notified ∧ l.Nodup ∧
        (∀ p ∈ l, isRevealed s p.1 p.2 = false) ∧ l.length ≤ unrevealedCount s) ∧
    unrevealedCount s ≤ s.rows.toNat * s.columns.toNat ∧
    (∀ f1 f2 t1 t2, revealCell f1 s row col = .ok t1 → revealCell f2 s row col = .ok t2 →
      t1 = t2) := by
  refine ⟨fun fuel hf => revealCell_total fuel s row col hwf hin hf, ?_, unrevealedCount_le s,
    fun f1 f2 t1 t2 h1 h2 => revealCell_fuel_irrelevant s t1 t2 row col f1 f2 h1 h2⟩
  intro fuel t h
  obtain ⟨hc, _, _⟩ := revealCell_spec fuel s t row col hwf hin h
  obtain ⟨l, hn, hd, hm, _, hcount⟩ := hc.log
  refine ⟨l, hn, hd, ?_, by omega⟩
  rintro ⟨r, c⟩ hp
  exact ((hm r c).1 hp).1

/-- C3, at a concrete board: revealing `(0, 0)` on the 1 x 7 board with its
mine at `(0, 3)`. The call recurses: `(0, 0)` and `(0, 1)` have no adjacent
mine, so the cascade passes the guard on `(0, 0)`, `(0, 1)` and `(0, 2)`, three
of the seven unrevealed cells, and meets the revealed `(0, 0)` and `(0, 1)`
again without passing it. -/
theorem revealCell_terminates_expanding_once_witness :
    WellFormed line7 ∧ InRange line7 0 0 ∧
    countAdjacentMines line7 0 0 = 0 ∧ countAdjacentMines line7 0 1 = 0 ∧
    unrevealedCount line7 = 7 ∧
    revealCell 8 line7 0 0 = .ok { line7 with
      revealed := [[true, true, true, false, false, false, false]]
      score := 3, notified := [(0, 2), (0, 1), (0, 0)] } ∧
    ((∀ fuel, unrevealedCount line7 < fuel → ∃ t, revealCell fuel line7 0 0 = .ok t) ∧
     (∀ fuel t, revealCell fuel line7 0 0 = .ok t →
       ∃ l : List (Int × Int), t.notified = l ++ line7.notified ∧ l.Nodup ∧
         (∀ p ∈ l, isRevealed line7 p.1 p.2 = false) ∧
         l.length ≤ unrevealedCount line7) ∧
     unrevealedCount line7 ≤ line7.rows.toNat * line7.columns.toNat ∧
     (∀ f1 f2 t1 t2, revealCell f1 line7 0 0 = .ok t1 →
       revealCell f2 line7 0 0 = .ok t2 → t1 = t2)) :=
  ⟨by decide, by decide, by decide, by decide, by decide, by decide,
   revealCell_terminates_expanding_once line7 0 0 (by decide) (by decide)⟩

/-- C4: on a well-formed board, for an unrevealed cell `(row, col)` of the
grid that is no mine, `revealCell` returns (given enough recursion depth) and
afterwards: `(row, col)` is revealed; revealed cells stay revealed; each newly
revealed cell lies in the grid, is no mine, and is `(row, col)` or a neighbour
of a newly revealed cell with no neighbouring mine; each newly revealed cell
with no neighbouring mine has all its neighbours in the grid revealed; and if
`(row, col)` has a neighbouring mine, nothing else is revealed. Nothing but
`revealed`, `score` and the notifications changes. -/
theorem revealCell_flood_fill (s : Minesweeper) (row col : Int)
    (hwf : WellFormed s) (hin : InRange s row col)
    (hno : isRevealed s row col = false) (hsafe : isMine s row col = false) :
    (∀ fuel, unrevealedCount s < fuel → ∃ t, revealCell fuel s row col = .ok t) ∧
    ∀ fuel t, revealCell fuel s row col = .ok t →
      isRevealed t row col = true ∧
      (∀ r c, isRevealed s r c = true → isRevealed t r c = true) ∧
      (∀ r c, NewlyRevealed s t r c →
        InRange s r c ∧ isMine s r c = false ∧
        ((r = row ∧ c = col) ∨
          ∃ qr qc, NewlyRevealed s t qr qc ∧ neighbourMines s qr qc = 0 ∧
            adjacent qr qc r c = true)) ∧
      (∀ r c, NewlyRevealed s t r c → neighbourMines s r c = 0 →
        ∀ r2 c2, InRange s r2 c2 → adjacent r c r2 c2 = true → isRevealed t r2 c2 = true) ∧
      (neighbourMines s row col ≠ 0 → ∀ r c, NewlyRevealed s t r c → r = row ∧ c = col) ∧
      t.grid = s.grid ∧ t.flagged = s.flagged ∧ t.hintRow = s.hintRow ∧
      t.hintCol = s.hintCol ∧ t.hintGiven = s.hintGiven ∧ t.rows = s.rows ∧
      t.columns = s.columns ∧ t.mines = s.mines := by
  refine ⟨fun fuel hf => revealCell_total fuel s row col hwf hin hf, ?_⟩
  intro fuel t h
  obtain ⟨hc, hcl, hrev⟩ := revealCell_spec fuel s t row col hwf hin h
  have hsafeAll : ∀ r c, NewlyRevealed s t r c → isMine s r c = false :=
    hc.not_mine (fun r c hr => by rw [hr.1, hr.2]; exact hsafe)
  refine ⟨hrev, hc.mono, ?_, ?_, ?_, hc.grid_eq, hc.flagged_eq, hc.hintRow_eq, hc.hintCol_eq,
    hc.hintGiven_eq, hc.rows_eq, hc.columns_eq, hc.mines_eq⟩
  · intro r c hn
    refine ⟨hc.inRange r c hn, hsafeAll r c hn, ?_⟩
    rcases hc.parent r c hn with hr | ⟨qr, qc, hq, hz, hadj⟩
    · exact Or.inl hr
    · right
      refine ⟨qr, qc, hq, ?_, hadj⟩
      rw [countAdjacentMines_of_not_mine s qr qc (hsafeAll qr qc hq)] at hz
      exact_mod_cast hz
  · intro r c hn hz
    apply hcl r c hn
    rw [countAdjacentMines_of_not_mine s r c (hsafeAll r c hn), hz]
    rfl
  · intro hnz r c hn
    cases fuel with
    | zero => simp [revealCell] at h
    | succ fuel =>
      rw [revealCell_succ, hno] at h
      have hpos : countAdjacentMines (markRevealed s row col) row col > 0 := by
        have e : countAdjacentMines (markRevealed s row col) row col
            = countAdjacentMines s row col := countAdjacentMines_congr rfl rfl rfl row col
        rw [e, countAdjacentMines_of_not_mine s row col hsafe]
        omega
      simp only [Bool.false_eq_true, if_false, hpos, if_true] at h
      injection h with h
      subst h
      exact (newlyRevealed_markRevealed s row col r c hwf hin hno).1 hn

end Minesweeper

namespace Minesweeper

/-- C4, at a concrete board: revealing `(0, 0)` on the 1 x 7 board with its
mine at `(0, 3)`. -/
theorem revealCell_flood_fill_witness :
    WellFormed line7 ∧ InRange line7 0 0 ∧ isRevealed line7 0 0 = false ∧
    isMine line7 0 0 = false ∧
    ((∀ fuel, unrevealedCount line7 < fuel → ∃ t, revealCell fuel line7 0 0 = .ok t) ∧
     ∀ fuel t, revealCell fuel line7 0 0 = .ok t →
      isRevealed t 0 0 = true ∧
      (∀ r c, isRevealed line7 r c = true → isRevealed t r c = true) ∧
      (∀ r c, NewlyRevealed line7 t r c →
        InRange line7 r c ∧ isMine line7 r c = false ∧
        ((r = 0 ∧ c = 0) ∨
          ∃ qr qc, NewlyRevealed line7 t qr qc ∧ neighbourMines line7 qr qc = 0 ∧
            adjacent qr qc r c = true)) ∧
      (∀ r c, NewlyRevealed line7 t r c → neighbourMines line7 r c = 0 →
        ∀ r2 c2, InRange line7 r2 c2 → adjacent r c r2 c2 = true →
          isRevealed t r2 c2 = true) ∧
      (neighbourMines line7 0 0 ≠ 0 → ∀ r c, NewlyRevealed line7 t r c → r = 0 ∧ c = 0) ∧
      t.grid = line7.grid ∧ t.flagged = line7.flagged ∧ t.hintRow = line7.hintRow ∧
      t.hintCol = line7.hintCol ∧ t.hintGiven = line7.hintGiven ∧ t.rows = line7.rows ∧
      t.columns = line7.columns ∧ t.mines = line7.mines) :=
  ⟨by decide, by decide, by decide, by decide,
   revealCell_flood_fill line7 0 0 (by decide) (by decide) (by decide) (by decide)⟩

/-- C2, refuted as stated: on the 2 x 2 board whose only mine is at `(1, 1)`,
the cell `(1, 1)` has no mine among its neighbours, yet `countAdjacentMines 1 1`
is 1: the loops visit the offset `(0, 0)` and count the mine of the queried
cell itself. On the board that differs only in having no mine at `(1, 1)` the
result is 0. -/
theorem countAdjacentMines_counts_own_mine :
    InRange mined2x2 1 1 ∧
    neighbourMines mined2x2 1 1 = 0 ∧ countAdjacentMines mined2x2 1 1 = 1 ∧
    mined2x2.grid = setCell clear2x2.grid 1 1 9 ∧ countAdjacentMines clear2x2 1 1 = 0 := by
  decide

end Minesweeper

/-! ## Hints -/

namespace Minesweeper

theorem pairwise_upTo (n : Int) : (upTo n).Pairwise (· < ·) := by
  unfold upTo
  apply List.Pairwise.map _ _ (List.pairwise_lt_range _)
  intro a b h
  simp only [Int.ofNat_eq_coe]
  omega

/-- The first hit of a search through an increasing list comes before all
other hits. -/
theorem findSome_first {β : Type} (f : Int → Option β) :
    ∀ (l : List Int) (b : β), l.Pairwise (· < ·) → l.findSome? f = some b →
      ∃ a ∈ l, f a = some b ∧ ∀ x ∈ l, x < a → f x = none
  | [], b, _, h => by simp at h
  | x :: xs, b, hl, h => by
    rw [List.pairwise_cons] at hl
    rw [List.findSome?_cons] at h
    cases hfx : f x with
    | some b2 =>
      rw [hfx] at h
      injection h with h
      subst h
      refine ⟨x, List.mem_cons_self _ _, hfx, ?_⟩
      intro y hy hlt
      rcases List.mem_cons.1 hy with e | hy
      · omega
      · have := hl.1 y hy
        omega
    | none =>
      rw [hfx] at h
      obtain ⟨a, ha, hfa, hmin⟩ := findSome_first f xs b hl.2 h
      refine ⟨a, List.mem_cons_of_mem _ ha, hfa, ?_⟩
      intro y hy hlt
      rcases List.mem_cons.1 hy with e | hy
      · rw [e]; exact hfx
      · exact hmin y hy hlt

theorem isSafeCell_iff (s : Minesweeper) (r c : Int) :
    isSafeCell s r c = true ↔
      isRevealed s r c = false ∧ isMine s r c = false ∧
      ∃ r2 c2, InRange s r2 c2 ∧ adjacent r c r2 c2 = true ∧ isRevealed s r2 c2 = true := by
  unfold isSafeCell
  split
  · rename_i h
    simp only [Bool.or_eq_true, decide_eq_true_eq] at h
    constructor
    · intro h2; exact absurd h2 Bool.false_ne_true
    · rintro ⟨h1, h2, _⟩
      rcases h with h | h
      · rw [isRevealed, h] at h1; exact absurd h1.symm Bool.false_ne_true
      · simp [isMine, h] at h2
  · rename_i h
    simp only [Bool.or_eq_true, decide_eq_true_eq, not_or, Bool.not_eq_true] at h
    obtain ⟨hrev, hmine⟩ := h
    simp only [List.any_eq_true, Bool.and_eq_true, inGrid_iff]
    constructor
    · rintro ⟨i, hi, j, hj, hin, hr⟩
      refine ⟨hrev, by simp [isMine, hmine], r + i, c + j, hin, ?_, hr⟩
      have hne : ¬ (i = 0 ∧ j = 0) := by
        rintro ⟨rfl, rfl⟩
        simp only [add_zero] at hr
        rw [hrev] at hr
        exact Bool.false_ne_true hr
      rw [adjacent_iff]
      simp only [around, List.mem_cons, List.mem_singleton, List.mem_nil_iff, or_false] at hi hj
      omega
    · rintro ⟨_, _, r2, c2, hin, hadj, hr⟩
      rw [adjacent_iff] at hadj
      refine ⟨r2 - r, ?_, c2 - c, ?_, ?_, ?_⟩
      · simp only [around, List.mem_cons, List.mem_singleton, List.mem_nil_iff, or_false]
        omega
      · simp only [around, List.mem_cons, List.mem_singleton, List.mem_nil_iff, or_false]
        omega
      · simpa using hin
      · simpa [isRevealed] using hr

/-- The search of `findSafeCell`, before `(-1, -1)` stands in for a miss. -/
theorem findSafeCell_some (s : Minesweeper) (r c : Int)
    (h : (upTo s.rows).findSome? (fun i =>
      (upTo s.columns).findSome? (fun j =>
        if isSafeCell s i j then some (i, j) else none)) = some (r, c)) :
    HintCandidate s r c ∧
    ∀ r2 c2, HintCandidate s r2 c2 → r < r2 ∨ (r = r2 ∧ c ≤ c2) := by
  obtain ⟨i, hi, hrow, hrows⟩ := findSome_first _ _ _ (pairwise_upTo _) h
  obtain ⟨j, hj, hcell, hcells⟩ := findSome_first _ _ _ (pairwise_upTo _) hrow
  split at hcell
  · rename_i hsafe
    injection hcell with hcell
    injection hcell with e1 e2
    subst e1 e2
    rw [mem_upTo] at hi hj
    refine ⟨⟨⟨hi.1, hi.2, hj.1, hj.2⟩, (isSafeCell_iff s i j).1 hsafe⟩, ?_⟩
    intro r2 c2 hcand
    obtain ⟨hin2, hrest⟩ := hcand
    have hsafe2 := (isSafeCell_iff s r2 c2).2 hrest
    obtain ⟨a, b, c3, d⟩ := hin2
    by_contra hcon
    by_cases hlt : r2 < i
    · have hnone := hrows r2 ((mem_upTo _ _).2 ⟨a, b⟩) hlt
      rw [List.findSome?_eq_none_iff] at hnone
      have := hnone c2 ((mem_upTo _ _).2 ⟨c3, d⟩)
      simp [hsafe2] at this
    · have hr : r2 = i := by omega
      subst hr
      have := hcells c2 ((mem_upTo _ _).2 ⟨c3, d⟩) (by omega)
      simp [hsafe2] at this
  · simp at hcell

theorem findSafeCell_none (s : Minesweeper)
    (h : (upTo s.rows).findSome? (fun i =>
      (upTo s.columns).findSome? (fun j =>
        if isSafeCell s i j then some (i, j) else none)) = none) :
    ∀ r c, ¬ HintCandidate s r c := by
  intro r c hcand
  obtain ⟨⟨a, b, c3, d⟩, hrest⟩ := hcand
  have hsafe := (isSafeCell_iff s r c).2 hrest
  rw [List.findSome?_eq_none_iff] at h
  have h2 := h r ((mem_upTo _ _).2 ⟨a, b⟩)
  rw [List.findSome?_eq_none_iff] at h2
  have := h2 c ((mem_upTo _ _).2 ⟨c3, d⟩)
  simp [hsafe] at this

/-- The two outcomes of `findSafeCell`. -/
theorem findSafeCell_cases (s : Minesweeper) :
    (findSafeCell s = (-1, -1) ∧ ∀ r c, ¬ HintCandidate s r c) ∨
    (HintCandidate s (findSafeCell s).1 (findSafeCell s).2 ∧
      ∀ r2 c2, HintCandidate s r2 c2 →
        (findSafeCell s).1 < r2 ∨ ((findSafeCell s).1 = r2 ∧ (findSafeCell s).2 ≤ c2)) := by
  unfold findSafeCell
  cases h : (upTo s.rows).findSome? (fun i =>
      (upTo s.columns).findSome? (fun j =>
        if isSafeCell s i j then some (i, j) else none)) with
  | none => exact Or.inl ⟨rfl, findSafeCell_none s h⟩
  | some p =>
    obtain ⟨r, c⟩ := p
    exact Or.inr (findSafeCell_some s r c h)

end Minesweeper

/-! ## Fresh boards -/

namespace Minesweeper

theorem getCell_replicate_default {α : Type} (d : α) (R C : Nat) (r c : Int) :
    getCell d (List.replicate R (List.replicate C d)) r c = d := by
  unfold getCell
  split
  · simp only [List.getD_eq_getElem?_getD, List.getElem?_replicate]
    split
    · simp only [Option.getD_some, List.getElem?_replicate]
      split <;> rfl
    · rfl
  · rfl

/-- Without rows or without columns the loop of `placeMines` cannot place a
mine: it ends in a division by zero, or lacks a draw before that. -/
theorem placeMinesLoop_degenerate (rows columns mines : Int) (draws : List Nat) (count : Int)
    (g g2 : List (List Int)) (hdeg : rows = 0 ∨ columns = 0) (hlt : count < mines) :
    placeMinesLoop rows columns mines draws count g ≠ .ok g2 := by
  unfold placeMinesLoop
  rw [if_pos hlt]
  split
  · simp
  · split <;> simp
  · rcases hdeg with h | h
    · simp [h]
    · simp only [h, if_true]
      split <;> simp

/-- Running `placeMines` on an all-clear grid: only the grid changes, it keeps its
dimensions, and (for a mine count that is not negative) it ends up with
`mines` mines. -/
theorem placeMines_clear (s t : Minesweeper) (draws : List Nat)
    (hrows : 0 ≤ s.rows) (hcols : 0 ≤ s.columns)
    (hclear : s.grid = List.replicate s.rows.toNat (List.replicate s.columns.toNat 0))
    (h : placeMines draws s = .ok t) :
    t = { s with grid := t.grid } ∧ Rect s.rows.toNat s.columns.toNat t.grid ∧
    (0 ≤ s.mines → (mineCount t : Int) = s.mines) := by
  unfold placeMines at h
  split at h
  · rename_i g hg
    injection h with h
    subst h
    refine ⟨rfl, ?_⟩
    rw [hclear] at hg
    by_cases hm : 0 < s.mines
    · by_cases hdeg : s.rows = 0 ∨ s.columns = 0
      · exact absurd hg (placeMinesLoop_degenerate _ _ _ _ _ _ _ hdeg hm)
      · have hbin : ∀ r c, InRange s r c →
            getCell 0 (List.replicate s.rows.toNat (List.replicate s.columns.toNat (0 : Int)))
              r c = 9 ∨
            getCell 0 (List.replicate s.rows.toNat (List.replicate s.columns.toNat (0 : Int)))
              r c = 0 :=
          fun r c _ => Or.inr (getCell_replicate_default 0 _ _ r c)
        obtain ⟨h1, _, h3⟩ := placeMinesLoop_spec s (by omega) (by omega) draws.length draws 0
          _ g (le_refl _) (Rect.replicate _ _ _) hbin (by omega) hg
        refine ⟨h1, fun _ => ?_⟩
        rw [mineCount_replicate] at h3
        rw [h3]
        simp
    · unfold placeMinesLoop at hg
      rw [if_neg hm] at hg
      injection hg with hg
      subst hg
      refine ⟨Rect.replicate _ _ _, fun h0 => ?_⟩
      rw [mineCount_replicate]
      simp only [Nat.cast_zero]
      omega
  · simp at h

theorem fresh_of_placeMines (s t : Minesweeper) (draws : List Nat)
    (hrows : 0 ≤ s.rows) (hcols : 0 ≤ s.columns)
    (hgrid : s.grid = List.replicate s.rows.toNat (List.replicate s.columns.toNat 0))
    (hrev : s.revealed = List.replicate s.rows.toNat (List.replicate s.columns.toNat false))
    (hflag : s.flagged = List.replicate s.rows.toNat (List.replicate s.columns.toNat false))
    (hscore : s.score = 0) (hg : s.hintGiven = false) (hhr : s.hintRow = -1)
    (hhc : s.hintCol = -1) (h : placeMines draws s = .ok t) :
    Fresh t ∧ SameConfig s t ∧ t.notified = s.notified := by
  obtain ⟨ht, hrect, hm⟩ := placeMines_clear s t draws hrows hcols hgrid h
  have e1 : t.revealed = s.revealed := by rw [ht]
  have e2 : t.flagged = s.flagged := by rw [ht]
  have e3 : t.rows = s.rows := by rw [ht]
  have e4 : t.columns = s.columns := by rw [ht]
  have e5 : t.mines = s.mines := by rw [ht]
  refine ⟨⟨⟨?_, ?_, ?_, ?_, ?_⟩, ?_, ?_, ?_, ?_, ?_, ?_, ?_⟩, ⟨e3, e4, e5⟩, by rw [ht]⟩
  · rw [e3]; exact hrows
  · rw [e4]; exact hcols
  · rw [e3, e4]; exact hrect
  · rw [e1, e3, e4, hrev]; exact Rect.replicate _ _ _
  · rw [e2, e3, e4, hflag]; exact Rect.replicate _ _ _
  · rw [ht]; exact hscore
  · rw [ht]; exact hg
  · rw [ht]; exact hhr
  · rw [ht]; exact hhc
  · intro r c
    unfold isRevealed
    rw [e1, hrev]
    exact getCell_replicate_default false _ _ r c
  · intro r c
    unfold isFlagged
    rw [e2, hflag]
    exact getCell_replicate_default false _ _ r c
  · rw [e5]; exact hm

theorem resetGame_fresh (s t : Minesweeper) (draws : List Nat)
    (h : resetGame draws s = .ok t) :
    Fresh t ∧ SameConfig s t ∧ t.notified = s.notified := by
  unfold resetGame at h
  split at h
  · simp at h
  · rename_i hneg
    exact fresh_of_placeMines (clearedBoard s) t draws
      (show 0 ≤ s.rows by omega) (show 0 ≤ s.columns by omega) rfl rfl rfl rfl rfl rfl rfl h

theorem construct_fresh (rows columns mines : Int) (t : Minesweeper) (draws : List Nat)
    (h : construct rows columns mines draws = .ok t) :
    Fresh t ∧ t.rows = rows ∧ t.columns = columns ∧ t.mines = mines ∧ t.notified = [] := by
  unfold construct at h
  split at h
  · simp at h
  · rename_i hneg
    obtain ⟨hf, hcfg, hn⟩ := fresh_of_placeMines (blankBoard rows columns mines) t draws
      (show 0 ≤ rows by omega) (show 0 ≤ columns by omega) rfl rfl rfl rfl rfl rfl rfl h
    exact ⟨hf, hcfg.1, hcfg.2.1, hcfg.2.2, hn⟩

theorem Fresh.toGameInv {s : Minesweeper} (h : Fresh s) : GameInv s where
  wellFormed := h.wellFormed
  score_eq := by
    rw [h.score_eq]
    unfold revealedCount
    rw [List.countP_eq_zero.2]
    · rfl
    · intro p _
      rw [h.unrevealed]
      exact Bool.false_ne_true
  hint_inRange := fun hg => by rw [h.hintGiven_eq] at hg; exact absurd hg Bool.false_ne_true
  hint_safe := fun hg => by rw [h.hintGiven_eq] at hg; exact absurd hg Bool.false_ne_true
  revealed_safe := fun r c _ hr => by
    rw [h.unrevealed] at hr; exact absurd hr Bool.false_ne_true
  mines_eq := h.mines_eq

end Minesweeper

/-! ## The invariant of the game -/

namespace Minesweeper

theorem isMine_congr {s t : Minesweeper} (hg : t.grid = s.grid) (r c : Int) :
    isMine t r c = isMine s r c := by
  unfold isMine
  rw [hg]

theorem mineCount_congr {s t : Minesweeper} (hg : t.grid = s.grid) (hr : t.rows = s.rows)
    (hc : t.columns = s.columns) : mineCount t = mineCount s := by
  unfold mineCount isMine
  rw [cells_congr hr hc, hg]

theorem revealedCount_congr {s t : Minesweeper} (hv : t.revealed = s.revealed)
    (hr : t.rows = s.rows) (hc : t.columns = s.columns) :
    revealedCount t = revealedCount s := by
  unfold revealedCount isRevealed
  rw [cells_congr hr hc, hv]

theorem Cascade.revealedCount_eq {R : Int → Int → Prop} {s t : Minesweeper}
    (h : Cascade R s t) :
    (t.score : Int) - revealedCount t = s.score - revealedCount s := by
  obtain ⟨l, _, _, _, hs, hc⟩ := h.log
  have h1 := revealedCount_add_unrevealedCount s
  have h2 := revealedCount_add_unrevealedCount t
  rw [cells_congr h.rows_eq h.columns_eq] at h2
  rw [hs]
  omega

theorem GameInv.of_cascade {R : Int → Int → Prop} {s t : Minesweeper} (hinv : GameInv s)
    (h : Cascade R s t) (hroots : ∀ r c, R r c → isMine s r c = false) : GameInv t where
  wellFormed := h.wellFormed
  score_eq := by
    have := h.revealedCount_eq
    have := hinv.score_eq
    omega
  hint_inRange := fun hg => by
    rw [h.hintGiven_eq] at hg
    rw [h.hintRow_eq, h.hintCol_eq, h.inRange_iff]
    exact hinv.hint_inRange hg
  hint_safe := fun hg => by
    rw [h.hintGiven_eq] at hg
    rw [h.hintRow_eq, h.hintCol_eq, isMine_congr h.grid_eq]
    exact hinv.hint_safe hg
  revealed_safe := fun r c hin hr => by
    rw [isMine_congr h.grid_eq]
    cases hs : isRevealed s r c with
    | true => exact hinv.revealed_safe r c ((h.inRange_iff r c).1 hin) hs
    | false => exact h.not_mine hroots r c ⟨hs, hr⟩
  mines_eq := fun h0 => by
    rw [mineCount_congr h.grid_eq h.rows_eq h.columns_eq, h.mines_eq]
    rw [h.mines_eq] at h0
    exact hinv.mines_eq h0

theorem GameInv.setHint {s : Minesweeper} (hinv : GameInv s) (hr hc : Int) (hg : Bool)
    (h1 : hg = true → InRange s hr hc) (h2 : hg = true → isMine s hr hc = false) :
    GameInv { s with hintRow := hr, hintCol := hc, hintGiven := hg } where
  wellFormed := hinv.wellFormed
  score_eq := hinv.score_eq
  hint_inRange := h1
  hint_safe := h2
  revealed_safe := hinv.revealed_safe
  mines_eq := hinv.mines_eq

theorem GameInv.revealCell {s t : Minesweeper} (hinv : GameInv s) (fuel : Nat) (row col : Int)
    (hin : InRange s row col) (hsafe : isMine s row col = false)
    (h : revealCell fuel s row col = .ok t) : GameInv t ∧ SameConfig s t := by
  obtain ⟨hc, _, _⟩ := revealCell_spec fuel s t row col hinv.wellFormed hin h
  exact ⟨hinv.of_cascade hc (fun r c hr => by rw [hr.1, hr.2]; exact hsafe),
    hc.rows_eq, hc.columns_eq, hc.mines_eq⟩

theorem GameInv.resetGame {s t : Minesweeper} (draws : List Nat)
    (h : resetGame draws s = .ok t) : GameInv t ∧ SameConfig s t := by
  obtain ⟨hf, hcfg, _⟩ := resetGame_fresh s t draws h
  exact ⟨hf.toGameInv, hcfg⟩

theorem GameInv.checkWin {s t : Minesweeper} (hinv : GameInv s) (draws : List Nat)
    (h : checkWin draws s = .ok t) : GameInv t ∧ SameConfig s t := by
  unfold Minesweeper.checkWin at h
  split at h
  · exact GameInv.resetGame draws h
  · injection h with h
    subst h
    exact ⟨hinv, rfl, rfl, rfl⟩

theorem GameInv.handleButtonClick {s t : Minesweeper} (hinv : GameInv s) (fuel : Nat)
    (draws : List Nat) (row col : Int) (hin : InRange s row col)
    (h : handleButtonClick fuel draws s row col = .ok t) : GameInv t ∧ SameConfig s t := by
  unfold Minesweeper.handleButtonClick at h
  have key : ∀ s0 : Minesweeper, GameInv s0 → SameConfig s s0 →
      (if getCell 0 s0.grid row col = 9 then gameOver draws s0
       else
        match Minesweeper.revealCell fuel s0 row col with
        | .error e => .error e
        | .ok s1 => Minesweeper.checkWin draws s1) = .ok t → GameInv t ∧ SameConfig s t := by
    intro s0 hinv0 hcfg h
    have hin0 : InRange s0 row col := by
      unfold InRange
      rw [hcfg.1, hcfg.2.1]
      exact hin
    split at h
    · obtain ⟨a, b⟩ := GameInv.resetGame draws h
      exact ⟨a, b.1.trans hcfg.1, b.2.1.trans hcfg.2.1, b.2.2.trans hcfg.2.2⟩
    · rename_i hsafe
      split at h
      · simp at h
      · rename_i s1 hs1
        obtain ⟨a, b⟩ := hinv0.revealCell fuel row col hin0 (by simp [isMine, hsafe]) hs1
        obtain ⟨a2, b2⟩ := a.checkWin draws h
        exact ⟨a2, b2.1.trans (b.1.trans hcfg.1), b2.2.1.trans (b.2.1.trans hcfg.2.1),
          b2.2.2.trans (b.2.2.trans hcfg.2.2)⟩
  have hclear : GameInv (clearHintAt s row col) ∧ SameConfig s (clearHintAt s row col) := by
    unfold clearHintAt
    split
    · exact ⟨hinv.setHint (-1) (-1) false (fun h => absurd h Bool.false_ne_true)
        (fun h => absurd h Bool.false_ne_true), rfl, rfl, rfl⟩
    · exact ⟨hinv, rfl, rfl, rfl⟩
  exact key _ hclear.1 hclear.2 h

end Minesweeper

namespace Minesweeper

theorem GameInv.giveHint {s t : Minesweeper} (hinv : GameInv s) (fuel : Nat)
    (draws : List Nat) (h : giveHint fuel draws s = .ok t) : GameInv t ∧ SameConfig s t := by
  unfold Minesweeper.giveHint at h
  split at h
  · rename_i hcond
    simp only [Bool.and_eq_true, decide_eq_true_eq] at hcond
    obtain ⟨⟨⟨hg, _⟩, _⟩, _⟩ := hcond
    split at h
    · simp at h
    · rename_i s1 hs1
      obtain ⟨a, b⟩ := hinv.revealCell fuel _ _ (hinv.hint_inRange hg) (hinv.hint_safe hg) hs1
      split at h
      · simp at h
      · rename_i s2 hs2
        obtain ⟨a2, b2⟩ := a.checkWin draws hs2
        injection h with h
        subst h
        exact ⟨a2.setHint (-1) (-1) false (fun h => absurd h Bool.false_ne_true)
          (fun h => absurd h Bool.false_ne_true),
          b2.1.trans b.1, b2.2.1.trans b.2.1, b2.2.2.trans b.2.2⟩
  · rcases hfind : findSafeCell s with ⟨row, col⟩
    rw [hfind] at h
    simp only at h
    split at h
    · rename_i hne
      injection h with h
      subst h
      rcases findSafeCell_cases s with ⟨e, _⟩ | ⟨hcand, _⟩
      · rw [hfind] at e
        injection e with e1 e2
        exact absurd e1 hne.1
      · rw [hfind] at hcand
        exact ⟨hinv.setHint row col true (fun _ => hcand.1) (fun _ => hcand.2.2.1),
          rfl, rfl, rfl⟩
    · injection h with h
      subst h
      exact ⟨hinv.setHint s.hintRow s.hintCol false (fun h => absurd h Bool.false_ne_true)
        (fun h => absurd h Bool.false_ne_true), rfl, rfl, rfl⟩

theorem GameInv.handleRightClick {s : Minesweeper} (hinv : GameInv s) (row col : Int) :
    GameInv (handleRightClick s row col) ∧ SameConfig s (handleRightClick s row col) := by
  have key : ∀ b : Bool, GameInv { s with flagged := setCell s.flagged row col b } := by
    intro b
    obtain ⟨h1, h2, h3, h4, h5⟩ := hinv.wellFormed
    exact
      { wellFormed := ⟨h1, h2, h3, h4, h5.setCell row col b⟩
        score_eq := hinv.score_eq
        hint_inRange := hinv.hint_inRange
        hint_safe := hinv.hint_safe
        revealed_safe := hinv.revealed_safe
        mines_eq := hinv.mines_eq }
  unfold Minesweeper.handleRightClick
  split
  · exact ⟨key false, rfl, rfl, rfl⟩
  · exact ⟨key true, rfl, rfl, rfl⟩

/-- Every state of the game satisfies the invariant and has the dimensions
and the mine count the board was constructed with. -/
theorem Reachable.gameInv {rows columns mines : Int} {s : Minesweeper}
    (h : Reachable rows columns mines s) :
    GameInv s ∧ s.rows = rows ∧ s.columns = columns ∧ s.mines = mines := by
  induction h with
  | construct draws s hs =>
    obtain ⟨hf, h1, h2, h3, _⟩ := construct_fresh rows columns mines s draws hs
    exact ⟨hf.toGameInv, h1, h2, h3⟩
  | handleButtonClick fuel draws s t row col _ hin hstep ih =>
    obtain ⟨a, b⟩ := ih.1.handleButtonClick fuel draws row col hin hstep
    exact ⟨a, b.1.trans ih.2.1, b.2.1.trans ih.2.2.1, b.2.2.trans ih.2.2.2⟩
  | handleRightClick s row col _ _ ih =>
    obtain ⟨a, b⟩ := ih.1.handleRightClick row col
    exact ⟨a, b.1.trans ih.2.1, b.2.1.trans ih.2.2.1, b.2.2.trans ih.2.2.2⟩
  | giveHint fuel draws s t _ hstep ih =>
    obtain ⟨a, b⟩ := ih.1.giveHint fuel draws hstep
    exact ⟨a, b.1.trans ih.2.1, b.2.1.trans ih.2.2.1, b.2.2.trans ih.2.2.2⟩
  | resetGame draws s t _ hstep ih =>
    obtain ⟨a, b⟩ := GameInv.resetGame draws hstep
    exact ⟨a, b.1.trans ih.2.1, b.2.1.trans ih.2.2.1, b.2.2.trans ih.2.2.2⟩

end Minesweeper

/-! ## Score -/

namespace Minesweeper

/-- The cells a cascade notifies are the cells of the grid it newly reveals. -/
theorem Cascade.score_eq {R : Int → Int → Prop} {s t : Minesweeper} (h : Cascade R s t) :
    t.score = s.score +
      (cells s).countP (fun p => !isRevealed s p.1 p.2 && isRevealed t p.1 p.2) := by
  obtain ⟨l, _, hd, hm, hs, _⟩ := h.log
  rw [hs, List.countP_eq_length_filter]
  congr 2
  apply List.Perm.length_eq
  rw [List.perm_ext_iff_of_nodup hd ((nodup_cells s).filter _)]
  rintro ⟨r, c⟩
  rw [hm, List.mem_filter, mem_cells]
  simp only [NewlyRevealed, Bool.and_eq_true, Bool.not_eq_true']
  constructor
  · intro hn
    exact ⟨h.inRange r c hn, hn⟩
  · intro hn
    exact hn.2

/-- C5: in every state reachable from the constructor by `handleButtonClick`,
`handleRightClick` (both on coordinates of the grid), `giveHint` and
`resetGame`, `score` is the number of cells with `revealed == true`; and a
call of `revealCell` in such a state adds to `score` exactly the number of
cells that it newly reveals, keeping the two equal. -/
theorem score_eq_revealedCount (rows columns mines : Int) (s : Minesweeper)
    (h : Reachable rows columns mines s) :
    s.score = revealedCount s ∧
    ∀ fuel row col t, InRange s row col → revealCell fuel s row col = .ok t →
      t.score = s.score +
        (cells s).countP (fun p => !isRevealed s p.1 p.2 && isRevealed t p.1 p.2) ∧
      t.score = revealedCount t := by
  obtain ⟨hinv, _⟩ := h.gameInv
  refine ⟨hinv.score_eq, ?_⟩
  intro fuel row col t hin hrun
  obtain ⟨hc, _, _⟩ := revealCell_spec fuel s t row col hinv.wellFormed hin hrun
  refine ⟨hc.score_eq, ?_⟩
  have h1 := hc.revealedCount_eq
  have h2 := hinv.score_eq
  omega

/-- C5, at a concrete state: the 1 x 7 board as constructed. -/
theorem score_eq_revealedCount_witness :
    Reachable 1 7 1 line7 ∧
    (line7.score = revealedCount line7 ∧
     ∀ fuel row col t, InRange line7 row col → revealCell fuel line7 row col = .ok t →
      t.score = line7.score +
        (cells line7).countP (fun p => !isRevealed line7 p.1 p.2 && isRevealed t p.1 p.2) ∧
      t.score = revealedCount t) :=
  ⟨Reachable.construct [0, 3] line7 (by decide),
   score_eq_revealedCount 1 7 1 line7 (Reachable.construct [0, 3] line7 (by decide))⟩

end Minesweeper

/-! ## Winning -/

namespace Minesweeper

theorem checkWinRow_eq (s : Minesweeper) (i : Int) :
    ∀ (js : List Int) (win : Bool),
      checkWinRow s i js win = (win && js.all (fun j => isRevealed s i j || isMine s i j))
  | [], win => by simp [checkWinRow]
  | j :: js, win => by
    unfold checkWinRow
    split
    · rename_i hbad
      simp only [Bool.and_eq_true, Bool.not_eq_true', decide_eq_true_eq] at hbad
      have h1 : isRevealed s i j = false := hbad.1
      have h2 : isMine s i j = false := by simp [isMine, hbad.2]
      simp [h1, h2]
    · rename_i hgood
      rw [checkWinRow_eq s i js win]
      have h : (isRevealed s i j || isMine s i j) = true := by
        simp only [Bool.and_eq_true, Bool.not_eq_true', decide_eq_true_eq, not_and,
          not_not] at hgood
        cases hr : isRevealed s i j with
        | true => rfl
        | false => simp [isMine, hgood hr]
      simp [h]

theorem checkWinRows_eq (s : Minesweeper) :
    ∀ (is : List Int) (win : Bool),
      checkWinRows s is win =
        (win && is.all (fun i =>
          (upTo s.columns).all (fun j => isRevealed s i j || isMine s i j)))
  | [], win => by simp [checkWinRows]
  | i :: is, win => by
    unfold checkWinRows
    rw [checkWinRows_eq s is, checkWinRow_eq]
    simp [Bool.and_assoc]

/-- The loops of `checkWin` leave `win` set exactly when every cell of the
grid that holds no mine is revealed. -/
theorem checkWinFlag_iff (s : Minesweeper) :
    checkWinFlag s = true ↔
      ∀ r c, InRange s r c → isMine s r c = false → isRevealed s r c = true := by
  unfold checkWinFlag
  rw [checkWinRows_eq]
  simp only [Bool.true_and, List.all_eq_true, mem_upTo, Bool.or_eq_true]
  constructor
  · intro h r c hin hm
    rcases h r ⟨hin.1, hin.2.1⟩ c ⟨hin.2.2.1, hin.2.2.2⟩ with h | h
    · exact h
    · rw [hm] at h; exact absurd h Bool.false_ne_true
  · intro h r hr c hc
    cases hm : isMine s r c with
    | true => exact Or.inr rfl
    | false => exact Or.inl (h r c ⟨hr.1, hr.2, hc.1, hc.2⟩ hm)

theorem countP_eq_of_imp {α : Type} (p q : α → Bool) :
    ∀ (l : List α), (∀ x ∈ l, p x = true → q x = true) → l.countP p = l.countP q →
      ∀ x ∈ l, q x = true → p x = true
  | [], _, _ => by simp
  | a :: l, himp, heq => by
    have himp2 : ∀ x ∈ l, p x = true → q x = true :=
      fun x hx => himp x (List.mem_cons_of_mem _ hx)
    have hle : l.countP p ≤ l.countP q := List.countP_mono_left himp2
    rw [List.countP_cons, List.countP_cons] at heq
    have ha := himp a (List.mem_cons_self _ _)
    intro x hx hq
    cases hpa : p a with
    | true =>
      have hqa := ha hpa
      rw [hpa, hqa] at heq
      rcases List.mem_cons.1 hx with e | hx
      · rw [e]; exact hpa
      · exact countP_eq_of_imp p q l himp2 (by simpa using heq) x hx hq
    | false =>
      cases hqa : q a with
      | true =>
        rw [hpa, hqa] at heq
        simp at heq
        omega
      | false =>
        rw [hpa, hqa] at heq
        rcases List.mem_cons.1 hx with e | hx
        · rw [e, hqa] at hq; exact absurd hq Bool.false_ne_true
        · exact countP_eq_of_imp p q l himp2 (by simpa using heq) x hx hq

/-- Number of cells without a mine, in terms of the dimensions and the number
of mines. -/
theorem safeCount_eq (s : Minesweeper) (hwf : WellFormed s) :
    ((cells s).countP (fun p => !isMine s p.1 p.2) : Int) =
      s.rows * s.columns - mineCount s := by
  have h := List.length_eq_countP_add_countP (fun p => isMine s p.1 p.2) (cells s)
  rw [length_cells] at h
  have e : (cells s).countP (fun p => !isMine s p.1 p.2)
      = (cells s).countP (fun a => decide ¬ isMine s a.1 a.2 = true) := by
    apply List.countP_congr
    intro p _
    simp
  rw [e]
  unfold mineCount
  have hr : ((s.rows.toNat : Nat) : Int) = s.rows := Int.toNat_of_nonneg hwf.1
  have hc : ((s.columns.toNat : Nat) : Int) = s.columns := Int.toNat_of_nonneg hwf.2.1
  have h2 : ((s.rows.toNat * s.columns.toNat : Nat) : Int) = s.rows * s.columns := by
    push_cast
    rw [hr, hc]
  rw [← h2, h]
  push_cast
  ring

/-- With the invariant of the game, the test of `checkWin` amounts to
`score == rows * columns - mines`. -/
theorem GameInv.checkWinFlag_iff_score {s : Minesweeper} (hinv : GameInv s)
    (hm : 0 ≤ s.mines) :
    checkWinFlag s = true ↔ s.score = s.rows * s.columns - s.mines := by
  have hsafe := safeCount_eq s hinv.wellFormed
  rw [hinv.mines_eq hm] at hsafe
  have himp : ∀ p ∈ cells s, isRevealed s p.1 p.2 = true → (!isMine s p.1 p.2) = true := by
    rintro ⟨r, c⟩ hp hr
    rw [hinv.revealed_safe r c ((mem_cells s r c).1 hp) hr]
    rfl
  rw [checkWinFlag_iff, hinv.score_eq, ← hsafe]
  constructor
  · intro h
    have : revealedCount s = (cells s).countP (fun p => !isMine s p.1 p.2) := by
      unfold revealedCount
      apply List.countP_congr
      rintro ⟨r, c⟩ hp
      constructor
      · exact himp (r, c) hp
      · intro hq
        exact h r c ((mem_cells s r c).1 hp) (by simpa using hq)
    rw [this]
  · intro h r c hin hmine
    have heq : (cells s).countP (fun p => isRevealed s p.1 p.2)
        = (cells s).countP (fun p => !isMine s p.1 p.2) := by
      unfold revealedCount at h
      exact_mod_cast h
    exact countP_eq_of_imp _ _ (cells s) himp heq (r, c) ((mem_cells s r c).2 hin)
      (by simp [hmine])

end Minesweeper

namespace Minesweeper

/-- C6: the loops of `checkWin` declare a win (and `checkWin` then resets the
game) exactly when every cell of the grid without a mine is revealed; and on a
board constructed with `rows > 0`, `columns > 0`, `0 <= mines < rows * columns`
this is, in every reachable state and in the state in which `checkWin` runs
after a `revealCell` on a safe cell, the same as
`score == rows * columns - mines`. -/
theorem checkWin_iff_safe_cells_revealed (rows columns mines : Int) (s : Minesweeper)
    (hv : ValidConfig rows columns mines) (h : Reachable rows columns mines s) :
    (∀ u : Minesweeper, checkWinFlag u = true ↔
      ∀ r c, InRange u r c → isMine u r c = false → isRevealed u r c = true) ∧
    (∀ (u : Minesweeper) (draws : List Nat),
      checkWin draws u = if checkWinFlag u then resetGame draws u else .ok u) ∧
    (checkWinFlag s = true ↔ s.score = rows * columns - mines) ∧
    (∀ fuel row col t, InRange s row col → isMine s row col = false →
      revealCell fuel s row col = .ok t →
      (checkWinFlag t = true ↔ t.score = rows * columns - mines)) := by
  obtain ⟨hinv, hr, hc, hm⟩ := h.gameInv
  obtain ⟨_, _, hm0, _⟩ := hv
  refine ⟨checkWinFlag_iff, fun _ _ => rfl, ?_, ?_⟩
  · have := hinv.checkWinFlag_iff_score (by rw [hm]; exact hm0)
    rw [hr, hc, hm] at this
    exact this
  · intro fuel row col t hin hsafe hrun
    obtain ⟨hinv2, hr2, hc2, hm2⟩ := hinv.revealCell fuel row col hin hsafe hrun
    have := hinv2.checkWinFlag_iff_score (by rw [hm2, hm]; exact hm0)
    rw [hr2, hc2, hm2, hr, hc, hm] at this
    exact this

/-- C6, at concrete boards: the 3 x 3 board with 8 mines is reachable and wins
on revealing its one safe cell; the 1 x 1 board without mines wins on
revealing its cell. -/
theorem checkWin_iff_safe_cells_revealed_witness :
    ValidConfig 3 3 8 ∧ Reachable 3 3 8 ring3x3 ∧
    ((∀ u : Minesweeper, checkWinFlag u = true ↔
      ∀ r c, InRange u r c → isMine u r c = false → isRevealed u r c = true) ∧
     (∀ (u : Minesweeper) (draws : List Nat),
      checkWin draws u = if checkWinFlag u then resetGame draws u else .ok u) ∧
     (checkWinFlag ring3x3 = true ↔ ring3x3.score = 3 * 3 - 8) ∧
     (∀ fuel row col t, InRange ring3x3 row col → isMine ring3x3 row col = false →
      revealCell fuel ring3x3 row col = .ok t →
      (checkWinFlag t = true ↔ t.score = 3 * 3 - 8))) ∧
    (revealCell 1 ring3x3 1 1).toOption.map checkWinFlag = some true ∧
    construct 1 1 0 [] = .ok solo1x1 ∧
    (revealCell 2 solo1x1 0 0).toOption.map checkWinFlag = some true :=
  ⟨by decide, Reachable.construct ringDraws ring3x3 (by decide),
   checkWin_iff_safe_cells_revealed 3 3 8 ring3x3 (by decide)
     (Reachable.construct ringDraws ring3x3 (by decide)),
   by decide, by decide, by decide⟩

end Minesweeper

namespace Minesweeper

/-- C9: `findSafeCell` returns the first cell, in row-major order, that lies in
the grid, is not revealed, is no mine and is next to a revealed cell, whenever
there is such a cell; it returns `(-1, -1)` exactly when there is none. It is
a function of the dimensions, the grid and `revealed` alone, and writes no
member, so repeating the call gives the same coordinate. -/
theorem findSafeCell_first_candidate (s : Minesweeper) :
    ((∃ r c, HintCandidate s r c) →
      HintCandidate s (findSafeCell s).1 (findSafeCell s).2 ∧
      ∀ r2 c2, HintCandidate s r2 c2 →
        (findSafeCell s).1 < r2 ∨ ((findSafeCell s).1 = r2 ∧ (findSafeCell s).2 ≤ c2)) ∧
    (findSafeCell s = (-1, -1) ↔ ¬ ∃ r c, HintCandidate s r c) ∧
    (∀ t : Minesweeper, t.rows = s.rows → t.columns = s.columns → t.grid = s.grid →
      t.revealed = s.revealed → findSafeCell t = findSafeCell s) := by
  refine ⟨?_, ?_, ?_⟩
  · rintro ⟨r, c, hcand⟩
    rcases findSafeCell_cases s with ⟨_, hnone⟩ | hsome
    · exact absurd hcand (hnone r c)
    · exact hsome
  · constructor
    · intro he
      rintro ⟨r, c, hcand⟩
      rcases findSafeCell_cases s with ⟨_, hnone⟩ | ⟨hsome, _⟩
      · exact hnone r c hcand
      · rw [he] at hsome
        have := hsome.1.1
        omega
    · intro hnone
      rcases findSafeCell_cases s with ⟨he, _⟩ | ⟨hsome, _⟩
      · exact he
      · exact absurd ⟨_, _, hsome⟩ hnone
  · intro t hr hc hg hv
    unfold findSafeCell isSafeCell inGrid
    rw [hr, hc, hg, hv]

/-- C9, at a concrete state: with `(0, 2)` and `(0, 4)` revealed on the 1 x 7
board, the hint is `(0, 1)`. -/
theorem findSafeCell_first_candidate_witness :
    findSafeCell opened7b = (0, 1) ∧
    (((∃ r c, HintCandidate opened7b r c) →
      HintCandidate opened7b (findSafeCell opened7b).1 (findSafeCell opened7b).2 ∧
      ∀ r2 c2, HintCandidate opened7b r2 c2 →
        (findSafeCell opened7b).1 < r2 ∨
          ((findSafeCell opened7b).1 = r2 ∧ (findSafeCell opened7b).2 ≤ c2)) ∧
     (findSafeCell opened7b = (-1, -1) ↔ ¬ ∃ r c, HintCandidate opened7b r c) ∧
     (∀ t : Minesweeper, t.rows = opened7b.rows → t.columns = opened7b.columns →
      t.grid = opened7b.grid → t.revealed = opened7b.revealed →
      findSafeCell t = findSafeCell opened7b)) :=
  ⟨by decide, findSafeCell_first_candidate opened7b⟩

end Minesweeper

/-! ## Clicks on flagged cells -/

namespace Minesweeper

theorem clearHintAt_eq (s : Minesweeper) (row col : Int) :
    ∃ hr hc hg, clearHintAt s row col =
      { s with hintRow := hr, hintCol := hc, hintGiven := hg } := by
  unfold clearHintAt
  split
  · exact ⟨-1, -1, false, rfl⟩
  · exact ⟨s.hintRow, s.hintCol, s.hintGiven, rfl⟩

/-- C7, refuted as stated: on the 2 x 2 board with its mine at `(1, 1)` and a
flag on `(0, 0)`, a state of the game, the click on `(0, 0)` is not ignored:
it reveals the flagged cell and raises the score. -/
theorem handleButtonClick_reveals_flagged :
    Reachable 2 2 1 flagged2x2 ∧ InRange flagged2x2 0 0 ∧ isFlagged flagged2x2 0 0 = true ∧
    handleButtonClick 1 [] flagged2x2 0 0 =
      .ok { flagged2x2 with
            revealed := [[true, false], [false, false]], score := 1, notified := [(0, 0)] } ∧
    ¬ (∀ (fuel : Nat) (draws : List Nat) (s t : Minesweeper) (row col : Int),
        WellFormed s → InRange s row col → isFlagged s row col = true →
        handleButtonClick fuel draws s row col = .ok t →
        t.revealed = s.revealed ∧ t.score = s.score) := by
  have hreach : Reachable 2 2 1 flagged2x2 :=
    Reachable.handleRightClick mined2x2 0 0
      (Reachable.construct [3, 3] mined2x2 (by decide)) (by decide)
  have hrun : handleButtonClick 1 [] flagged2x2 0 0 =
      .ok { flagged2x2 with
            revealed := [[true, false], [false, false]], score := 1, notified := [(0, 0)] } := by
    decide
  refine ⟨hreach, by decide, by decide, hrun, ?_⟩
  intro hall
  have := (hall 1 [] flagged2x2 _ 0 0 (by decide) (by decide) (by decide) hrun).2
  revert this
  decide

/-- C7, amended: `handleButtonClick` does not look at `flagged`. On a flagged
cell of the grid it does what it does on any cell: on a mine the game is over
and reset; on an unrevealed cell without a mine `revealCell` runs (given
enough recursion depth), reveals the cell and raises the score, the flag stays
set, and `checkWin` follows. -/
theorem handleButtonClick_on_flagged (s : Minesweeper) (row col : Int) (fuel : Nat)
    (draws : List Nat) (hwf : WellFormed s) (hin : InRange s row col)
    (hflag : isFlagged s row col = true) :
    (isMine s row col = true →
      handleButtonClick fuel draws s row col = resetGame draws (clearHintAt s row col)) ∧
    (isMine s row col = false → isRevealed s row col = false → unrevealedCount s < fuel →
      ∃ s1, revealCell fuel (clearHintAt s row col) row col = .ok s1 ∧
        handleButtonClick fuel draws s row col = checkWin draws s1 ∧
        isRevealed s1 row col = true ∧ isFlagged s1 row col = true ∧
        s.score < s1.score) := by
  obtain ⟨hr, hc, hg, he⟩ := clearHintAt_eq s row col
  constructor
  · intro hmine
    unfold handleButtonClick
    have : getCell 0 (clearHintAt s row col).grid row col = 9 := by
      rw [he]
      simpa [isMine] using hmine
    simp only [this, if_true]
    rfl
  · intro hsafe hno hfuel
    have hwf0 : WellFormed (clearHintAt s row col) := by rw [he]; exact hwf
    have hin0 : InRange (clearHintAt s row col) row col := by rw [he]; exact hin
    have hno0 : isRevealed (clearHintAt s row col) row col = false := by rw [he]; exact hno
    have hfuel0 : unrevealedCount (clearHintAt s row col) < fuel := by rw [he]; exact hfuel
    obtain ⟨s1, hs1⟩ := revealCell_total fuel _ row col hwf0 hin0 hfuel0
    obtain ⟨hcas, _, hrev⟩ := revealCell_spec fuel _ s1 row col hwf0 hin0 hs1
    refine ⟨s1, hs1, ?_, hrev, ?_, ?_⟩
    · unfold handleButtonClick
      have : ¬ getCell 0 (clearHintAt s row col).grid row col = 9 := by
        rw [he]
        simpa [isMine] using hsafe
      simp only [this, if_false, hs1]
    · unfold isFlagged
      rw [hcas.flagged_eq, he]
      exact hflag
    · obtain ⟨l, _, _, hm, hs, _⟩ := hcas.log
      have hmem : (row, col) ∈ l := (hm row col).2 ⟨hno0, hrev⟩
      have hpos : 0 < l.length := List.length_pos_of_mem hmem
      have hscore : (clearHintAt s row col).score = s.score := by rw [he]
      rw [hs, hscore]
      omega

/-- C7 amended, at a concrete state: the flagged cell `(0, 0)` of `flagged2x2`. -/
theorem handleButtonClick_on_flagged_witness :
    WellFormed flagged2x2 ∧ InRange flagged2x2 0 0 ∧ isFlagged flagged2x2 0 0 = true ∧
    isMine flagged2x2 0 0 = false ∧ isRevealed flagged2x2 0 0 = false ∧
    unrevealedCount flagged2x2 < 5 ∧
    ∃ s1, revealCell 5 (clearHintAt flagged2x2 0 0) 0 0 = .ok s1 ∧
      handleButtonClick 5 [] flagged2x2 0 0 = checkWin [] s1 ∧
      isRevealed s1 0 0 = true ∧ isFlagged s1 0 0 = true ∧
      flagged2x2.score < s1.score :=
  ⟨by decide, by decide, by decide, by decide, by decide, by decide,
   (handleButtonClick_on_flagged flagged2x2 0 0 5 [] (by decide) (by decide) (by decide)).2
     (by decide) (by decide) (by decide)⟩

end Minesweeper

/-! ## Flags -/

namespace Minesweeper

theorem set_getD_self {α : Type} (d : α) : ∀ (l : List α) (i : Nat), l.set i (l.getD i d) = l
  | [], _ => rfl
  | _ :: _, 0 => rfl
  | x :: xs, i + 1 => by
    rw [List.set_cons_succ, List.getD_cons_succ, set_getD_self d xs i]

theorem setCell_getCell {α : Type} (d : α) (v : List (List α)) (r c : Int) :
    setCell v r c (getCell d v r c) = v := by
  unfold setCell getCell
  split
  · rw [set_getD_self d, set_getD_self []]
  · rfl

theorem setCell_setCell {α : Type} (v : List (List α)) (r c : Int) (x y : α) :
    setCell (setCell v r c x) r c y = setCell v r c y := by
  unfold setCell
  split
  · by_cases hlen : r.toNat < v.length
    · rw [getD_set_same _ _ _ _ hlen, List.set_set, List.set_set]
    · have h1 : ∀ row : List α, v.set r.toNat row = v :=
        fun row => List.set_eq_of_length_le (by omega)
      rw [h1, h1]
  · rfl

/-- C8, refuted as stated: on the 1 x 7 board after a click on `(0, 4)`, a
state of the game, `handleRightClick` on the revealed cell `(0, 4)` is no
no-op: it sets the flag of that cell. -/
theorem handleRightClick_flags_revealed :
    Reachable 1 7 1 opened7 ∧ InRange opened7 0 4 ∧ isRevealed opened7 0 4 = true ∧
    isFlagged opened7 0 4 = false ∧ isFlagged (handleRightClick opened7 0 4) 0 4 = true ∧
    handleRightClick opened7 0 4 ≠ opened7 :=
  ⟨Reachable.handleButtonClick 1 [] line7 opened7 0 4
      (Reachable.construct [0, 3] line7 (by decide)) (by decide) (by decide),
   by decide, by decide, by decide, by decide, by decide⟩

/-- C8, amended: on a well-formed board and a coordinate of the grid,
`handleRightClick` flips `flagged` at `(row, col)` whether the cell is
revealed or not, leaves the flag of every other cell and every other member
as they are, and two consecutive calls restore the original state. -/
theorem handleRightClick_toggles (s : Minesweeper) (row col : Int)
    (hwf : WellFormed s) (hin : InRange s row col) :
    isFlagged (handleRightClick s row col) row col = !isFlagged s row col ∧
    (∀ r c, ¬ (r = row ∧ c = col) →
      isFlagged (handleRightClick s row col) r c = isFlagged s r c) ∧
    handleRightClick s row col = { s with flagged := (handleRightClick s row col).flagged } ∧
    handleRightClick (handleRightClick s row col) row col = s := by
  obtain ⟨hr0, hr, hc0, hc⟩ := hin
  have hrect := hwf.2.2.2.2
  have hset : ∀ b : Bool, getCell false (setCell s.flagged row col b) row col = b :=
    fun b => getCell_setCell_same false hrect row col b hr0 (by omega) hc0 (by omega)
  cases hf : isFlagged s row col with
  | true =>
    have hf2 : getCell false s.flagged row col = true := hf
    have e : handleRightClick s row col
        = { s with flagged := setCell s.flagged row col false } := by
      unfold handleRightClick
      rw [if_pos hf2]
    refine ⟨?_, ?_, ?_, ?_⟩
    · rw [e]; exact hset false
    · intro r c hne
      rw [e]
      exact getCell_setCell_ne false s.flagged row col r c false hne
    · rw [e]
    · rw [e]
      unfold handleRightClick
      simp only [hset false, Bool.false_eq_true, if_false, setCell_setCell]
      rw [← hf2, setCell_getCell]
  | false =>
    have hf2 : getCell false s.flagged row col = false := hf
    have e : handleRightClick s row col
        = { s with flagged := setCell s.flagged row col true } := by
      unfold handleRightClick
      rw [hf2]
      rfl
    refine ⟨?_, ?_, ?_, ?_⟩
    · rw [e]; exact hset true
    · intro r c hne
      rw [e]
      exact getCell_setCell_ne false s.flagged row col r c true hne
    · rw [e]
    · rw [e]
      unfold handleRightClick
      simp only [hset true, if_true, setCell_setCell]
      rw [← hf2, setCell_getCell]

/-- C8 amended, at a concrete state: the revealed cell `(0, 4)` of `opened7`. -/
theorem handleRightClick_toggles_witness :
    WellFormed opened7 ∧ InRange opened7 0 4 ∧
    (isFlagged (handleRightClick opened7 0 4) 0 4 = !isFlagged opened7 0 4 ∧
     (∀ r c, ¬ (r = 0 ∧ c = 4) →
      isFlagged (handleRightClick opened7 0 4) r c = isFlagged opened7 r c) ∧
     handleRightClick opened7 0 4 =
      { opened7 with flagged := (handleRightClick opened7 0 4).flagged } ∧
     handleRightClick (handleRightClick opened7 0 4) 0 4 = opened7) :=
  ⟨by decide, by decide, handleRightClick_toggles opened7 0 4 (by decide) (by decide)⟩

end Minesweeper

/-! ## The hint button while a hint is given -/

namespace Minesweeper

/-- C10, refuted as stated: on the 1 x 7 board, after clicks on `(0, 4)` and
`(0, 2)`, a hint (which names `(0, 1)`) and a click on `(0, 0)` whose cascade
reveals `(0, 1)`, the hint is still given and its cell revealed; `giveHint`
then does not end without a hint, it gives a new one at `(0, 5)`. -/
theorem giveHint_rehints_when_stale :
    Reachable 1 7 1 stale7 ∧
    stale7.hintGiven = true ∧ InRange stale7 stale7.hintRow stale7.hintCol ∧
    isRevealed stale7 stale7.hintRow stale7.hintCol = true ∧
    giveHint 0 [] stale7 = .ok { stale7 with hintRow := 0, hintCol := 5, hintGiven := true } :=
  ⟨Reachable.handleButtonClick 3 [] hinted7 stale7 0 0
      (Reachable.giveHint 0 [] opened7b hinted7
        (Reachable.handleButtonClick 1 [] opened7 opened7b 0 2
          (Reachable.handleButtonClick 1 [] line7 opened7 0 4
            (Reachable.construct [0, 3] line7 (by decide)) (by decide) (by decide))
          (by decide) (by decide))
        (by decide))
      (by decide) (by decide),
   by decide, by decide, by decide, by decide⟩

/-- C10, amended: in a well-formed state with a hint given at a cell
`(r, c)` of the grid, `giveHint` does one of two things. If `(r, c)` is
unrevealed, it runs `revealCell` on it (which, given enough recursion depth,
returns with `(r, c)` revealed), then `checkWin`, and ends without a hint. If
`(r, c)` is revealed, it reveals nothing and acts as without a hint: it
changes the hint members only, giving as new hint the cell `findSafeCell`
finds, and ends without a hint only when there is no such cell. -/
theorem giveHint_with_hint (s : Minesweeper) (fuel : Nat) (draws : List Nat)
    (hwf : WellFormed s) (hg : s.hintGiven = true)
    (hin : InRange s s.hintRow s.hintCol) :
    (isRevealed s s.hintRow s.hintCol = false → unrevealedCount s < fuel →
      ∃ s1, revealCell fuel s s.hintRow s.hintCol = .ok s1 ∧
        isRevealed s1 s.hintRow s.hintCol = true ∧
        ∀ t, giveHint fuel draws s = .ok t ↔
          ∃ s2, checkWin draws s1 = .ok s2 ∧
            t = { s2 with hintRow := -1, hintCol := -1, hintGiven := false }) ∧
    (isRevealed s s.hintRow s.hintCol = true →
      ∃ t, giveHint fuel draws s = .ok t ∧
        t = { s with hintRow := t.hintRow, hintCol := t.hintCol, hintGiven := t.hintGiven } ∧
        ((∃ r c, HintCandidate s r c) →
          t.hintGiven = true ∧ (t.hintRow, t.hintCol) = findSafeCell s ∧
          HintCandidate s t.hintRow t.hintCol) ∧
        ((¬ ∃ r c, HintCandidate s r c) → t.hintGiven = false)) := by
  have hr : s.hintRow ≠ -1 := by have := hin.1; omega
  have hc : s.hintCol ≠ -1 := by have := hin.2.2.1; omega
  constructor
  · intro hno hfuel
    obtain ⟨s1, hs1⟩ := revealCell_total fuel s _ _ hwf hin hfuel
    obtain ⟨_, _, hrev⟩ := revealCell_spec fuel s s1 _ _ hwf hin hs1
    refine ⟨s1, hs1, hrev, ?_⟩
    have hcond : (s.hintGiven && decide (s.hintRow ≠ -1) && decide (s.hintCol ≠ -1)
        && !getCell false s.revealed s.hintRow s.hintCol) = true := by
      have : getCell false s.revealed s.hintRow s.hintCol = false := hno
      simp [hg, hr, hc, this]
    intro t
    unfold giveHint
    rw [if_pos hcond, hs1]
    simp only
    cases hcw : checkWin draws s1 with
    | error e => simp
    | ok s2 =>
      simp only [Except.ok.injEq, exists_eq_left']
      exact eq_comm
  · intro hrev
    have hcond : ¬ (s.hintGiven && decide (s.hintRow ≠ -1) && decide (s.hintCol ≠ -1)
        && !getCell false s.revealed s.hintRow s.hintCol) = true := by
      have : getCell false s.revealed s.hintRow s.hintCol = true := hrev
      simp [this]
    unfold giveHint
    rw [if_neg hcond]
    rcases hfind : findSafeCell s with ⟨row, col⟩
    simp only
    rcases findSafeCell_cases s with ⟨he, hnone⟩ | ⟨hcand, _⟩
    · rw [hfind] at he
      injection he with e1 e2
      subst e1 e2
      refine ⟨_, rfl, rfl, ?_, fun _ => rfl⟩
      rintro ⟨r, c, hcand⟩
      exact absurd hcand (hnone r c)
    · rw [hfind] at hcand
      have hne : row ≠ -1 ∧ col ≠ -1 := by
        obtain ⟨h1, _, h2, _⟩ := hcand.1
        constructor <;> omega
      rw [if_pos hne]
      refine ⟨_, rfl, rfl, fun _ => ⟨rfl, rfl, hcand⟩, ?_⟩
      intro hnone
      exact absurd ⟨row, col, hcand⟩ hnone

/-- C10 amended, at concrete states: the hint of `hinted7`, whose cell is
unrevealed, and the stale hint of `stale7`. -/
theorem giveHint_with_hint_witness :
    (WellFormed hinted7 ∧ hinted7.hintGiven = true ∧
     InRange hinted7 hinted7.hintRow hinted7.hintCol ∧
     isRevealed hinted7 hinted7.hintRow hinted7.hintCol = false ∧
     unrevealedCount hinted7 < 8 ∧
     ∃ s1, revealCell 8 hinted7 hinted7.hintRow hinted7.hintCol = .ok s1 ∧
        isRevealed s1 hinted7.hintRow hinted7.hintCol = true ∧
        ∀ t, giveHint 8 [] hinted7 = .ok t ↔
          ∃ s2, checkWin [] s1 = .ok s2 ∧
            t = { s2 with hintRow := -1, hintCol := -1, hintGiven := false }) ∧
    (WellFormed stale7 ∧ stale7.hintGiven = true ∧
     InRange stale7 stale7.hintRow stale7.hintCol ∧
     isRevealed stale7 stale7.hintRow stale7.hintCol = true ∧
     ∃ t, giveHint 0 [] stale7 = .ok t ∧
        t = { stale7 with
              hintRow := t.hintRow, hintCol := t.hintCol, hintGiven := t.hintGiven } ∧
        ((∃ r c, HintCandidate stale7 r c) →
          t.hintGiven = true ∧ (t.hintRow, t.hintCol) = findSafeCell stale7 ∧
          HintCandidate stale7 t.hintRow t.hintCol) ∧
        ((¬ ∃ r c, HintCandidate stale7 r c) → t.hintGiven = false)) :=
  ⟨⟨by decide, by decide, by decide, by decide, by decide,
    (giveHint_with_hint hinted7 8 [] (by decide) (by decide) (by decide)).1
      (by decide) (by decide)⟩,
   ⟨by decide, by decide, by decide, by decide,
    (giveHint_with_hint stale7 0 [] (by decide) (by decide) (by decide)).2 (by decide)⟩⟩

end Minesweeper

/-! ## Resetting the game -/

namespace Minesweeper

/-- On a board that may hold the mines asked for, some draws make `resetGame`
return. -/
theorem resetGame_can_finish (s : Minesweeper) (hrows : 0 < s.rows) (hcols : 0 < s.columns)
    (hle : s.mines ≤ s.rows * s.columns) : ∃ draws t, resetGame draws s = .ok t := by
  obtain ⟨draws, g, hrun⟩ := placeMinesLoop_can_finish (clearedBoard s) hrows hcols hle
    (s.mines - 0).toNat 0 (clearedBoard s).grid (le_refl _) (Rect.replicate _ _ _)
    (congrArg (fun n : Nat => (n : Int)) (mineCount_replicate (clearedBoard s)))
  refine ⟨draws, { clearedBoard s with grid := g }, ?_⟩
  unfold resetGame
  rw [if_neg (by omega)]
  unfold placeMines
  have hrun2 : placeMinesLoop (clearedBoard s).rows (clearedBoard s).columns
      (clearedBoard s).mines draws 0 (clearedBoard s).grid = .ok g := hrun
  rw [hrun2]

/-- After `resetGame` on a board with rows and columns the grid holds only the
values 0 and 9. -/
theorem resetGame_binary (s t : Minesweeper) (draws : List Nat) (hrows : 0 < s.rows)
    (hcols : 0 < s.columns) (hmines : 0 ≤ s.mines) (h : resetGame draws s = .ok t) :
    ∀ r c, InRange s r c → getCell 0 t.grid r c = 9 ∨ getCell 0 t.grid r c = 0 := by
  unfold resetGame at h
  rw [if_neg (by omega)] at h
  unfold placeMines at h
  split at h
  · rename_i g hg
    injection h with h
    subst h
    have hbin : ∀ r c, InRange (clearedBoard s) r c →
        getCell 0 (clearedBoard s).grid r c = 9 ∨ getCell 0 (clearedBoard s).grid r c = 0 :=
      fun r c _ => Or.inr (getCell_replicate_default 0 _ _ r c)
    obtain ⟨_, h2, _⟩ := placeMinesLoop_spec (clearedBoard s) hrows hcols draws.length draws 0
      _ g (le_refl _) (Rect.replicate _ _ _) hbin hmines hg
    exact h2
  · simp at h

end Minesweeper

/-! ## Clicks on mines -/

namespace Minesweeper

/-- C13: in every state of the game, `handleButtonClick` on a cell of the grid
that holds a mine calls `gameOver` (after withdrawing a hint on that cell),
which resets the game: in the state it returns no cell is revealed, so no
`revealed` bit has become true, and `score` is 0, so not greater than before.
On a board with a valid configuration there are draws on which it returns. -/
theorem handleButtonClick_on_mine (rows columns mines : Int) (s : Minesweeper)
    (row col : Int) (h : Reachable rows columns mines s) (_hin : InRange s row col)
    (hmine : isMine s row col = true) :
    (∀ fuel draws,
      handleButtonClick fuel draws s row col = gameOver draws (clearHintAt s row col)) ∧
    (∀ fuel draws t, handleButtonClick fuel draws s row col = .ok t →
      (∀ r c, isRevealed t r c = false) ∧ t.score = 0 ∧ t.score ≤ s.score ∧
      t.hintGiven = false) ∧
    (ValidConfig rows columns mines →
      ∀ fuel, ∃ draws t, handleButtonClick fuel draws s row col = .ok t) := by
  obtain ⟨hinv, hr, hc, hm⟩ := h.gameInv
  obtain ⟨a, b, g, he⟩ := clearHintAt_eq s row col
  have hrun : ∀ fuel draws,
      handleButtonClick fuel draws s row col = gameOver draws (clearHintAt s row col) := by
    intro fuel draws
    unfold handleButtonClick
    have : getCell 0 (clearHintAt s row col).grid row col = 9 := by
      rw [he]
      simpa [isMine] using hmine
    simp only [this, if_true]
  refine ⟨hrun, ?_, ?_⟩
  · intro fuel draws t ht
    rw [hrun] at ht
    obtain ⟨hf, _, _⟩ := resetGame_fresh _ t draws ht
    refine ⟨hf.unrevealed, hf.score_eq, ?_, hf.hintGiven_eq⟩
    rw [hf.score_eq, hinv.score_eq]
    exact Int.ofNat_nonneg _
  · intro hv fuel
    obtain ⟨h1, h2, _, h4⟩ := hv
    have hrows : 0 < (clearHintAt s row col).rows := by rw [he]; show 0 < s.rows; omega
    have hcols : 0 < (clearHintAt s row col).columns := by rw [he]; show 0 < s.columns; omega
    have hle : (clearHintAt s row col).mines
        ≤ (clearHintAt s row col).rows * (clearHintAt s row col).columns := by
      rw [he]
      show s.mines ≤ s.rows * s.columns
      rw [hr, hc, hm]
      omega
    obtain ⟨draws, t, ht⟩ := resetGame_can_finish _ hrows hcols hle
    exact ⟨draws, t, by rw [hrun]; exact ht⟩

/-- C13, at a concrete state: the mine `(0, 3)` of the 1 x 7 board after a
click on `(0, 4)`. -/
theorem handleButtonClick_on_mine_witness :
    Reachable 1 7 1 opened7 ∧ InRange opened7 0 3 ∧ isMine opened7 0 3 = true ∧
    handleButtonClick 0 [0, 3] opened7 0 3 = .ok { line7 with notified := opened7.notified } ∧
    ((∀ fuel draws,
      handleButtonClick fuel draws opened7 0 3 = gameOver draws (clearHintAt opened7 0 3)) ∧
     (∀ fuel draws t, handleButtonClick fuel draws opened7 0 3 = .ok t →
      (∀ r c, isRevealed t r c = false) ∧ t.score = 0 ∧ t.score ≤ opened7.score ∧
      t.hintGiven = false) ∧
     (ValidConfig 1 7 1 →
      ∀ fuel, ∃ draws t, handleButtonClick fuel draws opened7 0 3 = .ok t)) :=
  ⟨Reachable.handleButtonClick 1 [] line7 opened7 0 4
      (Reachable.construct [0, 3] line7 (by decide)) (by decide) (by decide),
   by decide, by decide, by decide,
   handleButtonClick_on_mine 1 7 1 opened7 0 3
     (Reachable.handleButtonClick 1 [] line7 opened7 0 4
       (Reachable.construct [0, 3] line7 (by decide)) (by decide) (by decide))
     (by decide) (by decide)⟩

end Minesweeper

/-! ## Revealing a revealed cell -/

namespace Minesweeper

/-- C18: on a cell of the grid that is already revealed, `revealCell` returns
the state it was given: `revealed`, `flagged`, the grid, `score`, the hint and
the list of notified cells are all unchanged. Hence a second call of
`revealCell` on the cell of a first call changes nothing. -/
theorem revealCell_revealed_noop (s : Minesweeper) (row col : Int)
    (hwf : WellFormed s) (hin : InRange s row col) :
    (isRevealed s row col = true →
      (∀ fuel, revealCell (fuel + 1) s row col = .ok s) ∧
      (∀ fuel t, revealCell fuel s row col = .ok t → t = s)) ∧
    (∀ fuel fuel2 t, revealCell fuel s row col = .ok t →
      revealCell (fuel2 + 1) t row col = .ok t) := by
  have hnoop : ∀ (u : Minesweeper), isRevealed u row col = true →
      ∀ fuel, revealCell (fuel + 1) u row col = .ok u := by
    intro u hu fuel
    rw [revealCell_succ, if_pos hu]
  constructor
  · intro hrev
    refine ⟨hnoop s hrev, ?_⟩
    intro fuel t ht
    cases fuel with
    | zero => simp [revealCell] at ht
    | succ fuel =>
      rw [hnoop s hrev fuel] at ht
      injection ht with ht
      exact ht.symm
  · intro fuel fuel2 t ht
    obtain ⟨_, _, hrev⟩ := revealCell_spec fuel s t row col hwf hin ht
    exact hnoop t hrev fuel2

/-- C18, at a concrete state: the revealed cell `(0, 4)` of `opened7`. -/
theorem revealCell_revealed_noop_witness :
    WellFormed opened7 ∧ InRange opened7 0 4 ∧ isRevealed opened7 0 4 = true ∧
    ((isRevealed opened7 0 4 = true →
      (∀ fuel, revealCell (fuel + 1) opened7 0 4 = .ok opened7) ∧
      (∀ fuel t, revealCell fuel opened7 0 4 = .ok t → t = opened7)) ∧
     (∀ fuel fuel2 t, revealCell fuel opened7 0 4 = .ok t →
      revealCell (fuel2 + 1) t 0 4 = .ok t)) :=
  ⟨by decide, by decide, by decide,
   revealCell_revealed_noop opened7 0 4 (by decide) (by decide)⟩

end Minesweeper

/-! ## Mines stay hidden -/

namespace Minesweeper

/-- C20: in every state reachable from the constructor by
`handleButtonClick`, `handleRightClick` (both on coordinates of the grid),
`giveHint` and `resetGame`, no revealed cell of the grid holds a mine; a
`revealCell` started there on a cell without a mine returns a state in which
this still holds; and a hint that is given names a cell of the grid without a
mine. -/
theorem no_mine_revealed (rows columns mines : Int) (s : Minesweeper)
    (h : Reachable rows columns mines s) :
    (∀ r c, InRange s r c → isRevealed s r c = true → isMine s r c = false) ∧
    (∀ fuel row col t, InRange s row col → isMine s row col = false →
      revealCell fuel s row col = .ok t →
      ∀ r c, InRange t r c → isRevealed t r c = true → isMine t r c = false) ∧
    (s.hintGiven = true →
      InRange s s.hintRow s.hintCol ∧ isMine s s.hintRow s.hintCol = false) := by
  obtain ⟨hinv, _⟩ := h.gameInv
  refine ⟨hinv.revealed_safe, ?_, fun hg => ⟨hinv.hint_inRange hg, hinv.hint_safe hg⟩⟩
  intro fuel row col t hin hsafe hrun
  exact (hinv.revealCell fuel row col hin hsafe hrun).1.revealed_safe

/-- C20, at a concrete state: the board `opened7`. -/
theorem no_mine_revealed_witness :
    Reachable 1 7 1 opened7 ∧
    ((∀ r c, InRange opened7 r c → isRevealed opened7 r c = true → isMine opened7 r c = false) ∧
     (∀ fuel row col t, InRange opened7 row col → isMine opened7 row col = false →
      revealCell fuel opened7 row col = .ok t →
      ∀ r c, InRange t r c → isRevealed t r c = true → isMine t r c = false) ∧
     (opened7.hintGiven = true →
      InRange opened7 opened7.hintRow opened7.hintCol ∧
      isMine opened7 opened7.hintRow opened7.hintCol = false)) :=
  ⟨Reachable.handleButtonClick 1 [] line7 opened7 0 4
      (Reachable.construct [0, 3] line7 (by decide)) (by decide) (by decide),
   no_mine_revealed 1 7 1 opened7
     (Reachable.handleButtonClick 1 [] line7 opened7 0 4
       (Reachable.construct [0, 3] line7 (by decide)) (by decide) (by decide))⟩

end Minesweeper

/-! ## The hint button while no hint is given -/

namespace Minesweeper

/-- The branch of `giveHint` that looks for a new hint: it changes the hint
members only, to the cell `findSafeCell` finds if it finds one. -/
theorem giveHint_search (s : Minesweeper) (fuel : Nat) (draws : List Nat)
    (hcond : (s.hintGiven && decide (s.hintRow ≠ -1) && decide (s.hintCol ≠ -1)
      && !getCell false s.revealed s.hintRow s.hintCol) = false) :
    ∃ t, giveHint fuel draws s = .ok t ∧
      t = { s with hintRow := t.hintRow, hintCol := t.hintCol, hintGiven := t.hintGiven } ∧
      ((∃ r c, HintCandidate s r c) →
        t.hintGiven = true ∧ (t.hintRow, t.hintCol) = findSafeCell s ∧
        HintCandidate s t.hintRow t.hintCol) ∧
      ((¬ ∃ r c, HintCandidate s r c) →
        t.hintGiven = false ∧ t.hintRow = s.hintRow ∧ t.hintCol = s.hintCol) := by
  unfold giveHint
  rw [hcond]
  simp only [Bool.false_eq_true, if_false]
  rcases hfind : findSafeCell s with ⟨row, col⟩
  simp only
  rcases findSafeCell_cases s with ⟨he, hnone⟩ | ⟨hcand, _⟩
  · rw [hfind] at he
    injection he with e1 e2
    subst e1 e2
    refine ⟨_, rfl, rfl, ?_, fun _ => ⟨rfl, rfl, rfl⟩⟩
    rintro ⟨r, c, hcand⟩
    exact absurd hcand (hnone r c)
  · rw [hfind] at hcand
    have hne : row ≠ -1 ∧ col ≠ -1 := by
      obtain ⟨h1, _, h2, _⟩ := hcand.1
      constructor <;> omega
    rw [if_pos hne]
    refine ⟨_, rfl, rfl, fun _ => ⟨rfl, rfl, hcand⟩, ?_⟩
    intro hnone
    exact absurd ⟨row, col, hcand⟩ hnone

/-- C16: in a state without a hint given, `giveHint` returns a state that
differs from it in the hint members at most: `revealed`, `flagged`, the grid
and `score` are unchanged. If there is a cell a hint may name, the hint is then
given at the cell `findSafeCell` returns, which is such a cell; if there is
none, no hint is given afterwards either. -/
theorem giveHint_without_hint (s : Minesweeper) (fuel : Nat) (draws : List Nat)
    (hg : s.hintGiven = false) :
    ∃ t, giveHint fuel draws s = .ok t ∧
      t = { s with hintRow := t.hintRow, hintCol := t.hintCol, hintGiven := t.hintGiven } ∧
      ((∃ r c, HintCandidate s r c) →
        t.hintGiven = true ∧ (t.hintRow, t.hintCol) = findSafeCell s ∧
        HintCandidate s t.hintRow t.hintCol) ∧
      ((¬ ∃ r c, HintCandidate s r c) →
        t.hintGiven = false ∧ t.hintRow = s.hintRow ∧ t.hintCol = s.hintCol) :=
  giveHint_search s fuel draws (by rw [hg]; rfl)

/-- C16, at concrete states: on `opened7b` the hint button gives the hint
`(0, 1)`; on the untouched board `line7` it gives none. -/
theorem giveHint_without_hint_witness :
    opened7b.hintGiven = false ∧ giveHint 0 [] opened7b = .ok hinted7 ∧
    giveHint 0 [] line7 = .ok line7 ∧
    (∃ t, giveHint 0 [] opened7b = .ok t ∧
      t = { opened7b with
            hintRow := t.hintRow, hintCol := t.hintCol, hintGiven := t.hintGiven } ∧
      ((∃ r c, HintCandidate opened7b r c) →
        t.hintGiven = true ∧ (t.hintRow, t.hintCol) = findSafeCell opened7b ∧
        HintCandidate opened7b t.hintRow t.hintCol) ∧
      ((¬ ∃ r c, HintCandidate opened7b r c) →
        t.hintGiven = false ∧ t.hintRow = opened7b.hintRow ∧
        t.hintCol = opened7b.hintCol)) :=
  ⟨by decide, by decide, by decide, giveHint_without_hint opened7b 0 [] (by decide)⟩

end Minesweeper

/-! ## Construction -/

namespace Minesweeper

/-- With rows and columns the loop of `placeMines` either finishes or runs
out of draws. -/
theorem placeMinesLoop_ok_or_outOfDraws (rows columns mines : Int) (hrows : rows ≠ 0)
    (hcols : columns ≠ 0) :
    ∀ (n : Nat) (draws : List Nat) (count : Int) (g : List (List Int)), draws.length ≤ n →
      (∃ g2, placeMinesLoop rows columns mines draws count g = .ok g2) ∨
      placeMinesLoop rows columns mines draws count g = .error .outOfDraws := by
  intro n
  induction n with
  | zero =>
    intro draws count g hlen
    have hnil : draws = [] := List.length_eq_zero.1 (by omega)
    subst hnil
    unfold placeMinesLoop
    split
    · exact Or.inr rfl
    · exact Or.inl ⟨g, rfl⟩
  | succ n ih =>
    intro draws count g hlen
    unfold placeMinesLoop
    split
    · split
      · exact Or.inr rfl
      · exact Or.inr rfl
      · rename_i r c rest
        have hlen2 : rest.length ≤ n := by simp at hlen; omega
        simp only
        split
        · exact ih rest _ _ hlen2
        · exact ih rest _ _ hlen2
    · exact Or.inl ⟨g, rfl⟩

theorem mineCount_le (s : Minesweeper) : mineCount s ≤ s.rows.toNat * s.columns.toNat := by
  rw [← length_cells]
  exact List.countP_le_length _

/-- The configurations on which the constructor can return a board. -/
theorem construct_ok_iff (rows columns mines : Int) :
    (∃ draws t, construct rows columns mines draws = .ok t) ↔
      0 ≤ rows ∧ 0 ≤ columns ∧
      (mines ≤ 0 ∨ (0 < rows ∧ 0 < columns ∧ mines ≤ rows * columns)) := by
  constructor
  · rintro ⟨draws, t, h⟩
    obtain ⟨hf, hr, hc, hm, _⟩ := construct_fresh rows columns mines t draws h
    have hr0 : 0 ≤ rows := by rw [← hr]; exact hf.wellFormed.1
    have hc0 : 0 ≤ columns := by rw [← hc]; exact hf.wellFormed.2.1
    refine ⟨hr0, hc0, ?_⟩
    by_cases hpos : 0 < mines
    · right
      have hnd : ¬ (rows = 0 ∨ columns = 0) := by
        intro hdeg
        unfold construct at h
        rw [if_neg (by omega)] at h
        unfold placeMines at h
        split at h
        · rename_i g hg
          exact placeMinesLoop_degenerate rows columns mines draws 0 _ g hdeg hpos hg
        · simp at h
      have hcount := hf.mines_eq (by rw [hm]; omega)
      have hle := mineCount_le t
      rw [hm] at hcount
      rw [hr, hc] at hle
      have hprod : ((rows.toNat * columns.toNat : Nat) : Int) = rows * columns := by
        push_cast
        rw [Int.toNat_of_nonneg hr0, Int.toNat_of_nonneg hc0]
      refine ⟨by omega, by omega, ?_⟩
      rw [← hprod, ← hcount]
      exact_mod_cast hle
    · exact Or.inl (by omega)
  · rintro ⟨hr0, hc0, hcase⟩
    by_cases hpos : 0 < mines
    · rcases hcase with hle | ⟨hrows, hcols, hle⟩
      · omega
      · obtain ⟨draws, g, hrun⟩ := placeMinesLoop_can_finish (blankBoard rows columns mines)
          hrows hcols hle (mines - 0).toNat 0 (blankBoard rows columns mines).grid (le_refl _)
          (Rect.replicate _ _ _)
          (congrArg (fun n : Nat => (n : Int))
            (mineCount_replicate (blankBoard rows columns mines)))
        refine ⟨draws, { blankBoard rows columns mines with grid := g }, ?_⟩
        unfold construct
        rw [if_neg (by omega)]
        unfold placeMines
        have hrun2 : placeMinesLoop (blankBoard rows columns mines).rows
            (blankBoard rows columns mines).columns (blankBoard rows columns mines).mines
            draws 0 (blankBoard rows columns mines).grid = .ok g := hrun
        rw [hrun2]
    · refine ⟨[], blankBoard rows columns mines, ?_⟩
      unfold construct
      rw [if_neg (by omega)]
      unfold placeMines placeMinesLoop
      have hno : ¬ (0 : Int) < (blankBoard rows columns mines).mines := hpos
      rw [if_neg hno]

/-- C14, refuted as stated: the constructor returns a board for a negative
mine count (a 2 x 2 board without mines), for a mine count of
`rows * columns` (a 1 x 1 board that is one mine), and for zero rows with no
mines asked for (an empty board). -/
theorem construct_accepts_invalid :
    ¬ ValidConfig 2 2 (-1) ∧
    construct 2 2 (-1) [] = .ok { clear2x2 with mines := -1 } ∧
    ¬ ValidConfig 1 1 1 ∧
    construct 1 1 1 [0, 0] = .ok { solo1x1 with grid := [[9]], mines := 1 } ∧
    ¬ ValidConfig 0 5 0 ∧
    construct 0 5 0 [] = .ok { solo1x1 with
      grid := [], revealed := [], flagged := [], rows := 0, columns := 5 } := by
  decide

/-- C14, amended: the constructor validates nothing. It returns a board, for
suitable draws, exactly when `rows >= 0`, `columns >= 0` and either
`mines <= 0` or `rows > 0`, `columns > 0` and `mines <= rows * columns`; on a
valid configuration in particular. Otherwise it fails without an
invalid-configuration error of its own: with a negative dimension the vectors
cannot be allocated; with no rows or no columns and `mines > 0` mine placement
divides by zero on its first pass, at the first draw when there is no row and
at the second when there are rows but no column; with `mines > rows * columns`
mine placement divides by nothing and uses up every list of draws. -/
theorem construct_unvalidated (rows columns mines : Int) :
    ((∃ draws t, construct rows columns mines draws = .ok t) ↔
      0 ≤ rows ∧ 0 ≤ columns ∧
      (mines ≤ 0 ∨ (0 < rows ∧ 0 < columns ∧ mines ≤ rows * columns))) ∧
    (ValidConfig rows columns mines → ∃ draws t, construct rows columns mines draws = .ok t) ∧
    (rows < 0 ∨ columns < 0 →
      ∀ draws, construct rows columns mines draws = .error .badAlloc) ∧
    (0 ≤ rows → 0 ≤ columns → rows = 0 ∨ columns = 0 → 0 < mines →
      ∀ d1 d2 draws, construct rows columns mines (d1 :: d2 :: draws) = .error .divByZero) ∧
    (rows = 0 → 0 ≤ columns → 0 < mines →
      ∀ d draws, construct rows columns mines (d :: draws) = .error .divByZero) ∧
    (0 < rows → 0 < columns → rows * columns < mines →
      ∀ draws, construct rows columns mines draws = .error .outOfDraws) := by
  refine ⟨construct_ok_iff rows columns mines, ?_, ?_, ?_, ?_, ?_⟩
  · rintro ⟨h1, h2, _, h4⟩
    exact (construct_ok_iff rows columns mines).2 ⟨by omega, by omega, Or.inr ⟨h1, h2, by omega⟩⟩
  · intro hneg draws
    unfold construct
    rw [if_pos hneg]
  · intro hr0 hc0 hdeg hpos d1 d2 draws
    unfold construct
    rw [if_neg (by omega)]
    unfold placeMines placeMinesLoop
    have hlt : (0 : Int) < (blankBoard rows columns mines).mines := hpos
    rw [if_pos hlt]
    by_cases hr : rows = 0
    · have : (blankBoard rows columns mines).rows = 0 := hr
      simp [this]
    · have h1 : ¬ (blankBoard rows columns mines).rows = 0 := hr
      have h2 : (blankBoard rows columns mines).columns = 0 := by
        rcases hdeg with h | h
        · exact absurd h hr
        · exact h
      simp [h1, h2]
  · intro hr hc0 hpos d draws
    unfold construct
    rw [if_neg (by omega)]
    unfold placeMines placeMinesLoop
    have hlt : (0 : Int) < (blankBoard rows columns mines).mines := hpos
    rw [if_pos hlt]
    have : (blankBoard rows columns mines).rows = 0 := hr
    cases draws with
    | nil => simp [this]
    | cons c rest => simp [this]
  · intro hrows hcols hgt draws
    have hnot : ¬ ∃ draws t, construct rows columns mines draws = .ok t := by
      rw [construct_ok_iff]
      rintro ⟨_, _, h | ⟨_, _, h⟩⟩
      · have : 0 < rows * columns := Int.mul_pos hrows hcols
        omega
      · omega
    have hcases := placeMinesLoop_ok_or_outOfDraws rows columns mines (by omega) (by omega)
      draws.length draws 0 (blankBoard rows columns mines).grid (le_refl _)
    unfold construct
    rw [if_neg (by omega)]
    unfold placeMines
    rcases hcases with ⟨g, hg⟩ | herr
    · exfalso
      apply hnot
      refine ⟨draws, { blankBoard rows columns mines with grid := g }, ?_⟩
      unfold construct
      rw [if_neg (by omega)]
      unfold placeMines
      have hg2 : placeMinesLoop (blankBoard rows columns mines).rows
          (blankBoard rows columns mines).columns (blankBoard rows columns mines).mines
          draws 0 (blankBoard rows columns mines).grid = .ok g := hg
      rw [hg2]
    · have herr2 : placeMinesLoop (blankBoard rows columns mines).rows
          (blankBoard rows columns mines).columns (blankBoard rows columns mines).mines
          draws 0 (blankBoard rows columns mines).grid = .error .outOfDraws := herr
      rw [herr2]

/-- C14 amended, at concrete configurations: a valid one, a negative
dimension, rows without columns (division by zero at the second draw), no
rows (division by zero at the first draw), and more mines than cells. -/
theorem construct_unvalidated_witness :
    ValidConfig 2 2 1 ∧ (∃ draws t, construct 2 2 1 draws = .ok t) ∧
    (∀ draws, construct (-1) 2 1 draws = .error .badAlloc) ∧
    construct 3 0 2 [5, 7] = .error .divByZero ∧
    (∀ d1 d2 draws, construct 3 0 2 (d1 :: d2 :: draws) = .error .divByZero) ∧
    (∀ d draws, construct 0 3 2 (d :: draws) = .error .divByZero) ∧
    (∀ draws, construct 1 1 2 draws = .error .outOfDraws) :=
  ⟨by decide, (construct_unvalidated 2 2 1).2.1 (by decide),
   (construct_unvalidated (-1) 2 1).2.2.1 (by decide),
   by decide,
   (construct_unvalidated 3 0 2).2.2.2.1 (by decide) (by decide) (by decide) (by decide),
   (construct_unvalidated 0 3 2).2.2.2.2.1 rfl (by decide) (by decide),
   (construct_unvalidated 1 1 2).2.2.2.2.2 (by decide) (by decide) (by decide)⟩

/-- C19: the board that `main` constructs is not the 10 x 10 board its
comment announces: `main` passes `rows = 0`, the blank board it starts from has
no row, and since 10 mines are asked for, `placeMines` computes
`rand() % rows` with `rows == 0`. No list of draws makes the construction
return a board; with a first draw at hand it ends in a division by zero. -/
theorem main_constructs_no_board :
    (blankBoard 0 10 10).rows = 0 ∧ ¬ ValidConfig 0 10 10 ∧
    (∀ draws t, main draws ≠ .ok t) ∧
    (∀ d draws, main (d :: draws) = .error .divByZero) := by
  refine ⟨rfl, by decide, ?_, ?_⟩
  · intro draws t h
    have := (construct_ok_iff 0 10 10).1 ⟨draws, t, h⟩
    omega
  · intro d draws
    cases draws <;> rfl

end Minesweeper

/-! ## Flags on revealed cells -/

namespace Minesweeper

/-- C15, refuted as stated: on the 2 x 2 board with its mine at `(1, 1)`, a
right click on `(0, 0)` followed by a click on `(0, 0)` leads to a state of the
game in which `(0, 0)` is both revealed and flagged. -/
theorem revealed_and_flagged_reachable :
    Reachable 2 2 1 revealedFlagged2x2 ∧ InRange revealedFlagged2x2 0 0 ∧
    isRevealed revealedFlagged2x2 0 0 = true ∧ isFlagged revealedFlagged2x2 0 0 = true :=
  ⟨Reachable.handleButtonClick 1 [] flagged2x2 revealedFlagged2x2 0 0
      (Reachable.handleRightClick mined2x2 0 0
        (Reachable.construct [3, 3] mined2x2 (by decide)) (by decide))
      (by decide) (by decide),
   by decide, by decide, by decide⟩

/-- C15, amended: `revealed` and `flagged` are independent. In a well-formed
state `revealCell` on a cell of the grid leaves `flagged` as it is, so a
flagged cell that becomes revealed, directly or in a cascade, stays flagged;
`handleRightClick` leaves `revealed` as it is and flips the flag of a cell of
the grid also when that cell is revealed; only `resetGame` clears flags, and
then no cell is revealed or flagged. -/
theorem flagged_independent_of_revealed (s : Minesweeper) (hwf : WellFormed s) :
    (∀ fuel row col t, InRange s row col → revealCell fuel s row col = .ok t →
      t.flagged = s.flagged) ∧
    (∀ row col, (handleRightClick s row col).revealed = s.revealed) ∧
    (∀ row col, InRange s row col → isRevealed s row col = true →
      isFlagged s row col = false →
      isRevealed (handleRightClick s row col) row col = true ∧
      isFlagged (handleRightClick s row col) row col = true) ∧
    (∀ draws t, resetGame draws s = .ok t →
      ∀ r c, isRevealed t r c = false ∧ isFlagged t r c = false) := by
  refine ⟨?_, ?_, ?_, ?_⟩
  · intro fuel row col t hin hrun
    exact (revealCell_spec fuel s t row col hwf hin hrun).1.flagged_eq
  · intro row col
    unfold handleRightClick
    split <;> rfl
  · intro row col hin hrev hflag
    have hf : getCell false s.flagged row col = false := hflag
    have e : handleRightClick s row col
        = { s with flagged := setCell s.flagged row col true } := by
      unfold handleRightClick
      rw [hf]
      rfl
    rw [e]
    obtain ⟨hr0, hr, hc0, hc⟩ := hin
    exact ⟨hrev, getCell_setCell_same false hwf.2.2.2.2 row col true hr0 (by omega) hc0
      (by omega)⟩
  · intro draws t hrun r c
    obtain ⟨hf, _, _⟩ := resetGame_fresh s t draws hrun
    exact ⟨hf.unrevealed r c, hf.unflagged r c⟩

/-- C15 amended, at a concrete state: the board `flagged2x2`. -/
theorem flagged_independent_of_revealed_witness :
    WellFormed flagged2x2 ∧ revealCell 1 flagged2x2 0 0 = .ok revealedFlagged2x2 ∧
    ((∀ fuel row col t, InRange flagged2x2 row col → revealCell fuel flagged2x2 row col = .ok t →
      t.flagged = flagged2x2.flagged) ∧
     (∀ row col, (handleRightClick flagged2x2 row col).revealed = flagged2x2.revealed) ∧
     (∀ row col, InRange flagged2x2 row col → isRevealed flagged2x2 row col = true →
      isFlagged flagged2x2 row col = false →
      isRevealed (handleRightClick flagged2x2 row col) row col = true ∧
      isFlagged (handleRightClick flagged2x2 row col) row col = true) ∧
     (∀ draws t, resetGame draws flagged2x2 = .ok t →
      ∀ r c, isRevealed t r c = false ∧ isFlagged t r c = false)) :=
  ⟨by decide, by decide, flagged_independent_of_revealed flagged2x2 (by decide)⟩

end Minesweeper

/-! ## Hints on revealed cells -/

namespace Minesweeper

/-- After `handleButtonClick` either no hint is given, or the hint members are
those left by its first statement. -/
theorem handleButtonClick_hint (s t : Minesweeper) (fuel : Nat) (draws : List Nat)
    (row col : Int) (hwf : WellFormed s) (hin : InRange s row col)
    (h : handleButtonClick fuel draws s row col = .ok t) :
    t.hintGiven = false ∨
    (t.hintGiven = (clearHintAt s row col).hintGiven ∧
      t.hintRow = (clearHintAt s row col).hintRow ∧
      t.hintCol = (clearHintAt s row col).hintCol) := by
  obtain ⟨a, b, g, he⟩ := clearHintAt_eq s row col
  have hwf0 : WellFormed (clearHintAt s row col) := by rw [he]; exact hwf
  have hin0 : InRange (clearHintAt s row col) row col := by rw [he]; exact hin
  unfold handleButtonClick at h
  simp only at h
  split at h
  · exact Or.inl (resetGame_fresh _ t draws h).1.hintGiven_eq
  · split at h
    · simp at h
    · rename_i s1 hs1
      obtain ⟨hc, _, _⟩ := revealCell_spec fuel _ s1 row col hwf0 hin0 hs1
      unfold checkWin at h
      split at h
      · exact Or.inl (resetGame_fresh _ t draws h).1.hintGiven_eq
      · injection h with h
        subst h
        exact Or.inr ⟨hc.hintGiven_eq, hc.hintRow_eq, hc.hintCol_eq⟩

/-- C11, refuted as stated: on the 1 x 7 board, with `(0, 2)` and `(0, 4)`
revealed and the hint given at `(0, 1)`, a click on `(0, 0)` starts a cascade
that reveals `(0, 1)`; the state it leads to is a state of the game in which
the hint is still given and its cell is revealed. -/
theorem hint_survives_cascade :
    Reachable 1 7 1 hinted7 ∧ hinted7.hintGiven = true ∧
    isRevealed hinted7 hinted7.hintRow hinted7.hintCol = false ∧
    handleButtonClick 3 [] hinted7 0 0 = .ok stale7 ∧
    Reachable 1 7 1 stale7 ∧ stale7.hintGiven = true ∧
    stale7.hintRow = hinted7.hintRow ∧ stale7.hintCol = hinted7.hintCol ∧
    isRevealed stale7 stale7.hintRow stale7.hintCol = true := by
  have hreach : Reachable 1 7 1 hinted7 :=
    Reachable.giveHint 0 [] opened7b hinted7
      (Reachable.handleButtonClick 1 [] opened7 opened7b 0 2
        (Reachable.handleButtonClick 1 [] line7 opened7 0 4
          (Reachable.construct [0, 3] line7 (by decide)) (by decide) (by decide))
        (by decide) (by decide))
      (by decide)
  exact ⟨hreach, by decide, by decide, by decide,
    Reachable.handleButtonClick 3 [] hinted7 stale7 0 0 hreach (by decide) (by decide),
    by decide, by decide, by decide, by decide⟩

/-- C11, amended: in every state of the game a hint that is given names a
cell of the grid that holds no mine. A click on the hinted cell itself ends
with no hint given. A click on another cell of the grid never touches the
hint unless it ends the game: it ends with no hint given (after a reset) or
with the hint as it was, also when its cascade has revealed the hinted
cell. -/
theorem hint_in_range_and_safe (rows columns mines : Int) (s : Minesweeper)
    (h : Reachable rows columns mines s) :
    (s.hintGiven = true →
      InRange s s.hintRow s.hintCol ∧ isMine s s.hintRow s.hintCol = false) ∧
    (s.hintGiven = true → ∀ fuel draws t,
      handleButtonClick fuel draws s s.hintRow s.hintCol = .ok t → t.hintGiven = false) ∧
    (∀ fuel draws row col t, InRange s row col → ¬ (row = s.hintRow ∧ col = s.hintCol) →
      handleButtonClick fuel draws s row col = .ok t →
      t.hintGiven = false ∨
      (t.hintGiven = s.hintGiven ∧ t.hintRow = s.hintRow ∧ t.hintCol = s.hintCol)) := by
  obtain ⟨hinv, _⟩ := h.gameInv
  refine ⟨fun hg => ⟨hinv.hint_inRange hg, hinv.hint_safe hg⟩, ?_, ?_⟩
  · intro hg fuel draws t hrun
    have hclear : (clearHintAt s s.hintRow s.hintCol).hintGiven = false := by
      unfold clearHintAt
      simp [hg]
    rcases handleButtonClick_hint s t fuel draws _ _ hinv.wellFormed (hinv.hint_inRange hg)
      hrun with h1 | ⟨h1, _, _⟩
    · exact h1
    · rw [h1, hclear]
  · intro fuel draws row col t hin hne hrun
    have hsame : clearHintAt s row col = s := by
      unfold clearHintAt
      have : (s.hintGiven && decide (row = s.hintRow) && decide (col = s.hintCol)) = false := by
        by_cases h1 : row = s.hintRow
        · have h2 : ¬ col = s.hintCol := fun h2 => hne ⟨h1, h2⟩
          simp [h2]
        · simp [h1]
      rw [this]
      rfl
    have := handleButtonClick_hint s t fuel draws row col hinv.wellFormed hin hrun
    rw [hsame] at this
    exact this

/-- C11 amended, at a concrete state: the board `hinted7`. -/
theorem hint_in_range_and_safe_witness :
    Reachable 1 7 1 hinted7 ∧ hinted7.hintGiven = true ∧
    ((hinted7.hintGiven = true →
      InRange hinted7 hinted7.hintRow hinted7.hintCol ∧
      isMine hinted7 hinted7.hintRow hinted7.hintCol = false) ∧
     (hinted7.hintGiven = true → ∀ fuel draws t,
      handleButtonClick fuel draws hinted7 hinted7.hintRow hinted7.hintCol = .ok t →
      t.hintGiven = false) ∧
     (∀ fuel draws row col t, InRange hinted7 row col →
      ¬ (row = hinted7.hintRow ∧ col = hinted7.hintCol) →
      handleButtonClick fuel draws hinted7 row col = .ok t →
      t.hintGiven = false ∨
      (t.hintGiven = hinted7.hintGiven ∧ t.hintRow = hinted7.hintRow ∧
        t.hintCol = hinted7.hintCol))) := by
  have hreach : Reachable 1 7 1 hinted7 :=
    Reachable.giveHint 0 [] opened7b hinted7
      (Reachable.handleButtonClick 1 [] opened7 opened7b 0 2
        (Reachable.handleButtonClick 1 [] line7 opened7 0 4
          (Reachable.construct [0, 3] line7 (by decide)) (by decide) (by decide))
        (by decide) (by decide))
      (by decide)
  exact ⟨hreach, by decide, hint_in_range_and_safe 1 7 1 hinted7 hreach⟩

end Minesweeper

/-! ## Hints on a board without mines -/

namespace Minesweeper

/-- Without a revealed cell in the grid `findSafeCell` finds nothing. -/
theorem findSafeCell_unrevealed (s : Minesweeper)
    (h : ∀ r c, InRange s r c → isRevealed s r c = false) : findSafeCell s = (-1, -1) := by
  rcases findSafeCell_cases s with ⟨he, _⟩ | ⟨hcand, _⟩
  · exact he
  · obtain ⟨_, _, _, r2, c2, hin, _, hrev⟩ := hcand
    rw [h r2 c2 hin] at hrev
    exact absurd hrev Bool.false_ne_true

theorem countAdjacentMines_mineless (s : Minesweeper)
    (hno : ∀ r c, InRange s r c → isMine s r c = false) (r c : Int) :
    countAdjacentMines s r c = 0 := by
  have hterm : ∀ r2 c2, (inGrid s r2 c2 && isMine s r2 c2) = false := by
    intro r2 c2
    cases hg : inGrid s r2 c2 with
    | false => rfl
    | true => simpa using hno r2 c2 ((inGrid_iff s r2 c2).1 hg)
  rw [countAdjacentMines_eq_block, hterm r c]
  have hz : (ring8 r c).countP (fun p => inGrid s p.1 p.2 && isMine s p.1 p.2) = 0 := by
    rw [List.countP_eq_zero]
    intro p _
    rw [hterm]
    exact Bool.false_ne_true
  rw [hz]
  rfl

/-- On a board without mines and without revealed cells, one `revealCell`
reveals every cell of the grid: the cascade runs along the column of its cell
and from there along every row. -/
theorem revealCell_mineless_all (s t : Minesweeper) (fuel : Nat) (row col : Int)
    (hwf : WellFormed s) (hin : InRange s row col)
    (hno : ∀ r c, InRange s r c → isMine s r c = false)
    (hun : ∀ r c, InRange s r c → isRevealed s r c = false)
    (hrun : revealCell fuel s row col = .ok t) :
    ∀ r c, InRange s r c → isRevealed t r c = true := by
  obtain ⟨_, hcl, hrev⟩ := revealCell_spec fuel s t row col hwf hin hrun
  have hstep : ∀ r c r2 c2, InRange s r c → InRange s r2 c2 → isRevealed t r c = true →
      adjacent r c r2 c2 = true → isRevealed t r2 c2 = true := by
    intro r c r2 c2 h1 h2 hr hadj
    exact hcl r c ⟨hun r c h1, hr⟩ (countAdjacentMines_mineless s hno r c) r2 c2 h2 hadj
  obtain ⟨hr0, hr1, hc0, hc1⟩ := hin
  have hcolumn : ∀ (n : Nat) (r : Int), 0 ≤ r → r < s.rows → (r - row).natAbs = n →
      isRevealed t r col = true := by
    intro n
    induction n with
    | zero =>
      intro r _ _ hn
      have : r = row := by omega
      rw [this]
      exact hrev
    | succ n ih =>
      intro r h0 h1 hn
      by_cases hgt : row < r
      · have hprev := ih (r - 1) (by omega) (by omega) (by omega)
        exact hstep (r - 1) col r col ⟨by omega, by omega, hc0, hc1⟩ ⟨h0, h1, hc0, hc1⟩ hprev
          (by rw [adjacent_iff]; omega)
      · have hprev := ih (r + 1) (by omega) (by omega) (by omega)
        exact hstep (r + 1) col r col ⟨by omega, by omega, hc0, hc1⟩ ⟨h0, h1, hc0, hc1⟩ hprev
          (by rw [adjacent_iff]; omega)
  have hrowwalk : ∀ (n : Nat) (r c : Int), InRange s r c → (c - col).natAbs = n →
      isRevealed t r c = true := by
    intro n
    induction n with
    | zero =>
      intro r c hrc hn
      have : c = col := by omega
      rw [this]
      exact hcolumn _ r hrc.1 hrc.2.1 rfl
    | succ n ih =>
      intro r c hrc hn
      obtain ⟨a1, a2, a3, a4⟩ := hrc
      by_cases hgt : col < c
      · have hprev := ih r (c - 1) ⟨a1, a2, by omega, by omega⟩ (by omega)
        exact hstep r (c - 1) r c ⟨a1, a2, by omega, by omega⟩ ⟨a1, a2, a3, a4⟩ hprev
          (by rw [adjacent_iff]; omega)
      · have hprev := ih r (c + 1) ⟨a1, a2, by omega, by omega⟩ (by omega)
        exact hstep r (c + 1) r c ⟨a1, a2, by omega, by omega⟩ ⟨a1, a2, a3, a4⟩ hprev
          (by rw [adjacent_iff]; omega)
  intro r c hrc
  exact hrowwalk _ r c hrc rfl

/-- With no mines asked for `resetGame` needs no draw. -/
theorem resetGame_mineless (s : Minesweeper) (draws : List Nat) (hrows : 0 ≤ s.rows)
    (hcols : 0 ≤ s.columns) (hm : s.mines ≤ 0) : resetGame draws s = .ok (clearedBoard s) := by
  unfold resetGame
  rw [if_neg (by omega)]
  unfold placeMines placeMinesLoop
  have hno : ¬ (0 : Int) < (clearedBoard s).mines := by
    show ¬ (0 : Int) < s.mines
    omega
  rw [if_neg hno]

/-- On a board without mines and without revealed cells, a click on any cell
of the grid wins and resets the game. -/
theorem handleButtonClick_mineless (s : Minesweeper) (fuel : Nat) (draws : List Nat)
    (row col : Int) (hwf : WellFormed s) (hin : InRange s row col)
    (hg : s.hintGiven = false) (hm : s.mines ≤ 0)
    (hno : ∀ r c, InRange s r c → isMine s r c = false)
    (hun : ∀ r c, InRange s r c → isRevealed s r c = false) :
    (unrevealedCount s < fuel → ∃ t, handleButtonClick fuel draws s row col = .ok t) ∧
    (∀ t, handleButtonClick fuel draws s row col = .ok t → Fresh t) := by
  have hclear : clearHintAt s row col = s := by
    unfold clearHintAt
    rw [hg]
    rfl
  have hcell : ¬ getCell 0 s.grid row col = 9 := by
    simpa [isMine] using hno row col hin
  have hwin : ∀ s1, revealCell fuel s row col = .ok s1 → checkWinFlag s1 = true := by
    intro s1 hs1
    obtain ⟨hc, _, _⟩ := revealCell_spec fuel s s1 row col hwf hin hs1
    rw [checkWinFlag_iff]
    intro r c hrc _
    exact revealCell_mineless_all s s1 fuel row col hwf hin hno hun hs1 r c
      ((hc.inRange_iff r c).1 hrc)
  constructor
  · intro hfuel
    obtain ⟨s1, hs1⟩ := revealCell_total fuel s row col hwf hin hfuel
    obtain ⟨hc, _, _⟩ := revealCell_spec fuel s s1 row col hwf hin hs1
    refine ⟨clearedBoard s1, ?_⟩
    unfold handleButtonClick
    simp only [hclear, hcell, if_false, hs1]
    unfold checkWin
    rw [if_pos (hwin s1 hs1)]
    exact resetGame_mineless s1 draws (by rw [hc.rows_eq]; exact hwf.1)
      (by rw [hc.columns_eq]; exact hwf.2.1) (by rw [hc.mines_eq]; exact hm)
  · intro t hrun
    unfold handleButtonClick at hrun
    simp only [hclear, hcell, if_false] at hrun
    split at hrun
    · simp at hrun
    · rename_i s1 hs1
      unfold checkWin at hrun
      rw [if_pos (hwin s1 hs1)] at hrun
      exact (resetGame_fresh _ t draws hrun).1

/-- C17, refuted as stated: on the 4 x 4 board without mines `findSafeCell`
returns `(-1, -1)` before any reveal, and again after the click on `(0, 0)`:
the cascade reveals all sixteen cells, `checkWin` resets the game, and the
state returned has no revealed cell next to which a hint could lie. -/
theorem findSafeCell_none_after_click :
    construct 4 4 0 [] = .ok board4x4 ∧ findSafeCell board4x4 = (-1, -1) ∧
    ∃ t, handleButtonClick 17 [] board4x4 0 0 = .ok t ∧
      (∀ r c, isRevealed t r c = false) ∧ findSafeCell t = (-1, -1) := by
  have hno : ∀ r c, InRange board4x4 r c → isMine board4x4 r c = false := by
    have h : ∀ p ∈ cells board4x4, isMine board4x4 p.1 p.2 = false := by decide
    exact fun r c hrc => h (r, c) ((mem_cells board4x4 r c).2 hrc)
  have hun : ∀ r c, InRange board4x4 r c → isRevealed board4x4 r c = false := by
    have h : ∀ p ∈ cells board4x4, isRevealed board4x4 p.1 p.2 = false := by decide
    exact fun r c hrc => h (r, c) ((mem_cells board4x4 r c).2 hrc)
  obtain ⟨hex, hfresh⟩ := handleButtonClick_mineless board4x4 17 [] 0 0 (by decide)
    (by decide) rfl (by decide) hno hun
  obtain ⟨t, ht⟩ := hex (by decide)
  have hf := hfresh t ht
  exact ⟨by decide, findSafeCell_unrevealed board4x4 hun, t, ht, hf.unrevealed,
    findSafeCell_unrevealed t (fun r c _ => hf.unrevealed r c)⟩

/-- C17, amended: on any board without a revealed cell in the grid
`findSafeCell` returns `(-1, -1)`, so on the 4 x 4 board without mines before
any reveal. One `handleButtonClick` on any cell of that board returns (given
enough recursion depth), and in the state it returns no cell is revealed (the
cascade has revealed them all and the game was won and reset) and
`findSafeCell` returns `(-1, -1)` again. On any board, a cell that
`findSafeCell` returns is next to a revealed cell of the grid. -/
theorem findSafeCell_mineless_4x4 :
    (∀ s : Minesweeper, (∀ r c, InRange s r c → isRevealed s r c = false) →
      findSafeCell s = (-1, -1)) ∧
    (∀ draws row col, InRange board4x4 row col →
      ∃ t, handleButtonClick 17 draws board4x4 row col = .ok t) ∧
    (∀ fuel draws row col t, InRange board4x4 row col →
      handleButtonClick fuel draws board4x4 row col = .ok t →
      (∀ r c, isRevealed t r c = false) ∧ findSafeCell t = (-1, -1)) ∧
    (∀ s : Minesweeper, findSafeCell s ≠ (-1, -1) →
      ∃ r2 c2, InRange s r2 c2 ∧
        adjacent (findSafeCell s).1 (findSafeCell s).2 r2 c2 = true ∧
        isRevealed s r2 c2 = true) := by
  have hno : ∀ r c, InRange board4x4 r c → isMine board4x4 r c = false := by
    have h : ∀ p ∈ cells board4x4, isMine board4x4 p.1 p.2 = false := by decide
    exact fun r c hrc => h (r, c) ((mem_cells board4x4 r c).2 hrc)
  have hun : ∀ r c, InRange board4x4 r c → isRevealed board4x4 r c = false := by
    have h : ∀ p ∈ cells board4x4, isRevealed board4x4 p.1 p.2 = false := by decide
    exact fun r c hrc => h (r, c) ((mem_cells board4x4 r c).2 hrc)
  refine ⟨findSafeCell_unrevealed, ?_, ?_, ?_⟩
  · intro draws row col hin
    exact (handleButtonClick_mineless board4x4 17 draws row col (by decide) hin rfl
      (by decide) hno hun).1 (by decide)
  · intro fuel draws row col t hin hrun
    have hf := (handleButtonClick_mineless board4x4 fuel draws row col (by decide) hin rfl
      (by decide) hno hun).2 t hrun
    exact ⟨hf.unrevealed, findSafeCell_unrevealed t (fun r c _ => hf.unrevealed r c)⟩
  · intro s hne
    rcases findSafeCell_cases s with ⟨he, _⟩ | ⟨hcand, _⟩
    · exact absurd he hne
    · exact hcand.2.2.2

/-- C17 amended, at a concrete cell: a click on `(2, 3)` of the 4 x 4 board
without mines. -/
theorem findSafeCell_mineless_4x4_witness :
    InRange board4x4 2 3 ∧ (∃ t, handleButtonClick 17 [] board4x4 2 3 = .ok t) ∧
    ∀ fuel draws t, handleButtonClick fuel draws board4x4 2 3 = .ok t →
      (∀ r c, isRevealed t r c = false) ∧ findSafeCell t = (-1, -1) :=
  ⟨by decide, findSafeCell_mineless_4x4.2.1 [] 2 3 (by decide),
   fun fuel draws t h => findSafeCell_mineless_4x4.2.2.1 fuel draws 2 3 t (by decide) h⟩

end Minesweeper

/-! ## The count of adjacent mines on any cell -/

namespace Minesweeper

/-- C2, amended: on every cell of the grid `countAdjacentMines` is the number
of mines among the neighbours of the cell (at Chebyshev distance 1, in the
grid) plus one if the cell itself holds a mine. So on a cell without a mine,
the only cells `revealCell` is run on, it is the number of neighbouring mines;
and of two layouts that differ at `(row, col)` only, both have the same
neighbouring mines, and the same result if they agree on whether `(row, col)`
holds a mine. -/
theorem countAdjacentMines_block_count (s : Minesweeper) (row col : Int)
    (hin : InRange s row col) :
    countAdjacentMines s row col
      = (neighbourMines s row col : Int) + (if isMine s row col then 1 else 0) ∧
    (isMine s row col = false →
      countAdjacentMines s row col = (neighbourMines s row col : Int)) ∧
    (∀ t : Minesweeper, t.rows = s.rows → t.columns = s.columns →
      (∀ r c, ¬ (r = row ∧ c = col) → getCell 0 t.grid r c = getCell 0 s.grid r c) →
      neighbourMines t row col = neighbourMines s row col ∧
      (isMine t row col = isMine s row col →
        countAdjacentMines t row col = countAdjacentMines s row col)) := by
  have hg : inGrid s row col = true := (inGrid_iff s row col).2 hin
  have hblock : ∀ u : Minesweeper, inGrid u row col = true →
      countAdjacentMines u row col
        = (neighbourMines u row col : Int) + (if isMine u row col then 1 else 0) := by
    intro u hu
    rw [countAdjacentMines_eq, hu]
    simp
  refine ⟨hblock s hg, countAdjacentMines_of_not_mine s row col, ?_⟩
  intro t hr hc hsame
  have hgt : inGrid t row col = true := by
    unfold inGrid
    rw [hr, hc]
    exact hg
  have hn : neighbourMines t row col = neighbourMines s row col := by
    rw [neighbourMines_eq_ring, neighbourMines_eq_ring]
    apply List.countP_congr
    rintro ⟨r, c⟩ hp
    have hadj := (mem_ring8 row col r c).1 hp
    rw [adjacent_iff] at hadj
    have hcell : isMine t r c = isMine s r c := by
      unfold isMine
      rw [hsame r c hadj.2.2.2.2]
    have hgrid : inGrid t r c = inGrid s r c := by
      unfold inGrid
      rw [hr, hc]
    simp only [hcell, hgrid]
  refine ⟨hn, ?_⟩
  intro hm
  rw [hblock t hgt, hblock s hg, hn, hm]

/-- C2 amended, at concrete cells: the mine `(1, 1)` and the safe cell `(0, 0)`
of the 2 x 2 board. -/
theorem countAdjacentMines_block_count_witness :
    InRange mined2x2 1 1 ∧ isMine mined2x2 1 1 = true ∧
    countAdjacentMines mined2x2 1 1 = (neighbourMines mined2x2 1 1 : Int) + 1 ∧
    InRange mined2x2 0 0 ∧ isMine mined2x2 0 0 = false ∧
    countAdjacentMines mined2x2 0 0 = (neighbourMines mined2x2 0 0 : Int) ∧
    neighbourMines mined2x2 0 0 = 1 :=
  ⟨by decide, by decide,
   (countAdjacentMines_block_count mined2x2 1 1 (by decide)).1,
   by decide, by decide,
   (countAdjacentMines_block_count mined2x2 0 0 (by decide)).2.1 (by decide),
   by decide⟩

end Minesweeper

/-! ## What a reset leaves -/

namespace Minesweeper

/-- A reset that returns has vectors to allocate, and rows and columns if it
has mines to place. -/
theorem resetGame_ok_dims (s t : Minesweeper) (draws : List Nat)
    (h : resetGame draws s = .ok t) :
    0 ≤ s.rows ∧ 0 ≤ s.columns ∧ (0 < s.mines → 0 < s.rows ∧ 0 < s.columns) := by
  unfold resetGame at h
  split at h
  · simp at h
  · rename_i hneg
    refine ⟨by omega, by omega, ?_⟩
    intro hpos
    by_contra hcon
    have hdeg : (clearedBoard s).rows = 0 ∨ (clearedBoard s).columns = 0 := by
      show s.rows = 0 ∨ s.columns = 0
      omega
    have hpos2 : (0 : Int) < (clearedBoard s).mines := hpos
    unfold placeMines at h
    split at h
    · rename_i g hg
      exact placeMinesLoop_degenerate _ _ _ draws 0 _ g hdeg hpos2 hg
    · simp at h

/-- C12: in every board state, after every run of `resetGame` that returns:
every cell is unrevealed and unflagged, `score` is 0, no hint is given
(`hintRow` and `hintCol` are -1), `rows`, `columns` and `mines` are unchanged,
and the grid has its dimensions, holds only the values 0 and 9, and holds
exactly `mines` mines (none when `mines` is negative, a value only the
unchecked constructor lets through). On a board with `rows > 0`,
`columns > 0` and `0 <= mines < rows * columns` there are draws on which
`resetGame` returns. -/
theorem resetGame_clears_and_replaces (s : Minesweeper) :
    (ValidConfig s.rows s.columns s.mines → ∃ draws t, resetGame draws s = .ok t) ∧
    ∀ draws t, resetGame draws s = .ok t →
      (∀ r c, isRevealed t r c = false) ∧ (∀ r c, isFlagged t r c = false) ∧
      t.score = 0 ∧ t.hintGiven = false ∧ t.hintRow = -1 ∧ t.hintCol = -1 ∧
      t.rows = s.rows ∧ t.columns = s.columns ∧ t.mines = s.mines ∧
      WellFormed t ∧
      (∀ r c, InRange t r c → getCell 0 t.grid r c = 9 ∨ getCell 0 t.grid r c = 0) ∧
      (0 ≤ s.mines → (mineCount t : Int) = s.mines) ∧
      (s.mines < 0 → mineCount t = 0) := by
  constructor
  · rintro ⟨hrows, hcols, _, hlt⟩
    exact resetGame_can_finish s hrows hcols (le_of_lt hlt)
  intro draws t h
  obtain ⟨hf, hcfg, _⟩ := resetGame_fresh s t draws h
  obtain ⟨hr0, hc0, hdims⟩ := resetGame_ok_dims s t draws h
  have hclear : s.mines ≤ 0 → t = clearedBoard s := by
    intro hm
    have h2 := resetGame_mineless s draws hr0 hc0 hm
    rw [h2] at h
    injection h with h
    exact h.symm
  refine ⟨hf.unrevealed, hf.unflagged, hf.score_eq, hf.hintGiven_eq, hf.hintRow_eq,
    hf.hintCol_eq, hcfg.1, hcfg.2.1, hcfg.2.2, hf.wellFormed, ?_, ?_, ?_⟩
  · intro r c hin
    by_cases hpos : 0 < s.mines
    · obtain ⟨hrows, hcols⟩ := hdims hpos
      apply resetGame_binary s t draws hrows hcols (by omega) h
      unfold InRange at hin ⊢
      rw [hcfg.1, hcfg.2.1] at hin
      exact hin
    · right
      rw [hclear (by omega)]
      exact getCell_replicate_default 0 _ _ r c
  · intro h0
    rw [← hcfg.2.2]
    exact hf.mines_eq (by rw [hcfg.2.2]; exact h0)
  · intro hneg
    rw [hclear (by omega)]
    exact mineCount_replicate (clearedBoard s)

/-- C12, at concrete states: the board `stale7`, with four cells revealed and
a hint given; and the 1 x 1 board that is one mine, outside the valid
configurations, with its cell flagged. -/
theorem resetGame_clears_and_replaces_witness :
    ValidConfig stale7.rows stale7.columns stale7.mines ∧
    resetGame [0, 3] stale7 = .ok { line7 with notified := stale7.notified } ∧
    (∃ draws t, resetGame draws stale7 = .ok t) ∧
    (∀ draws t, resetGame draws stale7 = .ok t →
      (∀ r c, isRevealed t r c = false) ∧ (∀ r c, isFlagged t r c = false) ∧
      t.score = 0 ∧ t.hintGiven = false ∧ t.hintRow = -1 ∧ t.hintCol = -1 ∧
      t.rows = stale7.rows ∧ t.columns = stale7.columns ∧ t.mines = stale7.mines ∧
      WellFormed t ∧
      (∀ r c, InRange t r c → getCell 0 t.grid r c = 9 ∨ getCell 0 t.grid r c = 0) ∧
      (0 ≤ stale7.mines → (mineCount t : Int) = stale7.mines) ∧
      (stale7.mines < 0 → mineCount t = 0)) ∧
    ¬ ValidConfig 1 1 1 ∧
    resetGame [0, 0] { solo1x1 with grid := [[9]], flagged := [[true]], mines := 1 }
      = .ok { solo1x1 with grid := [[9]], mines := 1 } :=
  ⟨by decide, by decide,
   (resetGame_clears_and_replaces stale7).1 (by decide),
   (resetGame_clears_and_replaces stale7).2,
   by decide, by decide⟩

end Minesweeper
